import Mathlib

/-!
Verification of the output-buffer manager and streaming codec driver of the
brotli Python binding (`src/python/_brotli.c`).

The C file is shallowly embedded as follows.

* A `PyBytes` block is a `Chunk`: its `Py_SIZE` (the allocation size) is the
  tracked field `cap`, its payload is `data` (a list of byte values whose
  length is `cap`; bytes that the C code leaves uninitialized are modelled as
  `0`).
* `BlocksOutputBuffer` is the pair of the block list and the `allocated`
  counter, exactly as in the C struct.
* Allocation (`PyBytes_FromStringAndSize` / `PyList_New` / `PyList_Append`)
  is fallible in C; each allocation site takes a `Bool` telling whether the
  allocation succeeds, drawn from an oracle list `allocs : List Bool`
  (exhausted entries default to `true`, i.e. success).
* The opaque codec engines (`BrotliEncoderState` / `BrotliDecoderState`,
  which live in the repository's C library, outside `src/`) are abstract
  transition structures `EncEngine` / `DecEngine`: a step consumes a suffix
  of the input and writes a list of bytes into the current output window,
  exactly the observable effect of `BrotliEncoderCompressStream` /
  `BrotliDecoderDecompressStream` through their pointer arguments.
* The driver loops (`compress_stream`, `decompress_stream`,
  `brotli_decompress`) are fuel-indexed recursions; `none` means the fuel ran
  out before the C loop exited.  They additionally record a trace of events
  (engine steps, buffer growth, cleanup, finalization) so that control-flow
  properties of the loop are stated as properties of the trace.
-/

set_option maxRecDepth 8000

namespace Brotli

/-! ### Block size schedule (`BUFFER_BLOCK_SIZE`, lines 29-37) -/

def KB : Nat := 1024

def MB : Nat := 1024 * 1024

/-- The fixed block size sequence `static const int BUFFER_BLOCK_SIZE[]`. -/
def BUFFER_BLOCK_SIZE : List Nat :=
  [32*KB, 64*KB, 256*KB, 1*MB, 4*MB, 8*MB, 16*MB, 16*MB,
   32*MB, 32*MB, 32*MB, 32*MB, 64*MB, 64*MB, 128*MB, 128*MB,
   256*MB]

/-! ### BlocksOutputBuffer (lines 19-191) -/

/-- One `PyBytes` block: `cap` is `Py_SIZE(block)`, `data` its payload. -/
structure Chunk where
  cap : Nat
  data : List Nat
deriving Repr, DecidableEq

/-- The `BlocksOutputBuffer` struct: the block list and the running total of
allocated block sizes. -/
structure BlocksOutputBuffer where
  list : List Chunk
  allocated : Nat
deriving Repr, DecidableEq

/-- Result of `PyBytes_FromStringAndSize(NULL, n)`: a fresh block of size `n`
with unspecified contents (modelled as zero bytes). -/
def newBlock (n : Nat) : Chunk := ⟨n, List.replicate n 0⟩

/-- The last block of the list (callers guarantee the list is nonempty). -/
def lastChunk (l : List Chunk) : Chunk := l.getLastD ⟨0, []⟩

/-- `BlocksOutputBuffer_InitAndGrow` (lines 70-98): allocate the first block
of size `BUFFER_BLOCK_SIZE[0]`, create the singleton list, set `allocated`,
and hand out the whole block as the output window.  `allocOk = false` is the
path where one of the two allocations fails: `buffer->list` stays `NULL` and
the function returns `-1` (modelled as `none`). -/
def BlocksOutputBuffer_InitAndGrow (allocOk : Bool) :
    Option (BlocksOutputBuffer × Nat) :=
  let block_size := BUFFER_BLOCK_SIZE.getD 0 0
  if allocOk then some (⟨[newBlock block_size], block_size⟩, block_size)
  else none

/-- Block size chosen by `BlocksOutputBuffer_Grow` (lines 115-120): index the
schedule by the current list length, clamped to the last entry. -/
def blockSizeFor (list_len : Nat) : Nat :=
  if list_len < BUFFER_BLOCK_SIZE.length then BUFFER_BLOCK_SIZE.getD list_len 0
  else BUFFER_BLOCK_SIZE.getD (BUFFER_BLOCK_SIZE.length - 1) 0

/-- `BlocksOutputBuffer_Grow` (lines 104-143): append a fresh block sized by
the schedule, bump `allocated`, and hand out the whole new block as the
window.  On allocation failure the C code does `Py_CLEAR(buffer->list)`
(releasing every block) and returns `-1`; the failure value carries the
post-failure buffer with its list released. -/
def BlocksOutputBuffer_Grow (buffer : BlocksOutputBuffer) (allocOk : Bool) :
    Except BlocksOutputBuffer (BlocksOutputBuffer × Nat) :=
  let block_size := blockSizeFor buffer.list.length
  if allocOk then
    .ok (⟨buffer.list ++ [newBlock block_size], buffer.allocated + block_size⟩,
         block_size)
  else
    .error ⟨[], buffer.allocated⟩

/-- The copy loop of `BlocksOutputBuffer_Finish` (lines 165-180): every block
except the last is copied at its full `Py_SIZE`, the last block is copied
truncated to `Py_SIZE - avail_out`; an empty list copies nothing. -/
def copyBlocks : List Chunk → Nat → List Nat
  | [], _ => []
  | [c], avail_out => c.data.take (c.cap - avail_out)
  | c :: c2 :: rest, avail_out => c.data.take c.cap ++ copyBlocks (c2 :: rest) avail_out

/-- `BlocksOutputBuffer_Finish` (lines 149-184): allocate the destination of
size `allocated - avail_out` (the copy loop produces exactly that many bytes
whenever the buffer invariants hold), run the copy loop, and `Py_CLEAR` the
list.  On allocation failure the list is likewise cleared and `NULL` is
returned. -/
def BlocksOutputBuffer_Finish (buffer : BlocksOutputBuffer) (avail_out : Nat)
    (allocOk : Bool) : Option (List Nat) × BlocksOutputBuffer :=
  if allocOk then
    (some (copyBlocks buffer.list avail_out), ⟨[], buffer.allocated⟩)
  else
    (none, ⟨[], buffer.allocated⟩)

/-- `BlocksOutputBuffer_CleanUp` (lines 187-191): release the block list. -/
def BlocksOutputBuffer_CleanUp (buffer : BlocksOutputBuffer) : BlocksOutputBuffer :=
  ⟨[], buffer.allocated⟩

/-- Effect of the engine writing `bs` through `next_out` into the current
window: the bytes land in the last block at offset `cap - availOut`. -/
def writeLast : List Chunk → Nat → List Nat → List Chunk
  | [], _, _ => []
  | [c], availOut, bs =>
      [⟨c.cap, c.data.take (c.cap - availOut) ++ bs ++
              c.data.drop (c.cap - availOut + bs.length)⟩]
  | c :: c2 :: rest, availOut, bs => c :: writeLast (c2 :: rest) availOut bs

/-- The buffer after the engine has written `bs` into the window. -/
def writeWindow (buffer : BlocksOutputBuffer) (availOut : Nat) (bs : List Nat) :
    BlocksOutputBuffer :=
  ⟨writeLast buffer.list availOut bs, buffer.allocated⟩

/-- The buffer obtained from `InitAndGrow` followed by `k` successful calls
to `Grow`, together with the current window size: the reachable buffer
states of a driver run, at the points where growth just happened. -/
def growSeq : Nat → BlocksOutputBuffer × Nat
  | 0 => (BlocksOutputBuffer_InitAndGrow true).getD (⟨[], 0⟩, 0)
  | k + 1 =>
    match BlocksOutputBuffer_Grow (growSeq k).1 true with
    | .ok p => p
    | .error b => (b, 0)

/-- Capacity the spec's schedule assigns to chunk `i`:
`SCHEDULE[min(i, len(SCHEDULE)-1)]`. -/
def schedCap (i : Nat) : Nat := BUFFER_BLOCK_SIZE.getD (min i 16) 0

/-! ### Encoder engine interface and `compress_stream` (lines 267-314) -/

/-- The `BrotliEncoderOperation` values used by the binding. -/
inductive EncOp where
  | process
  | flush
  | finish
deriving DecidableEq, Repr

/-- Observable effect of one `BrotliEncoderCompressStream` call: the return
value `ok`, the new engine state, the unconsumed suffix of the input, and the
bytes written into the output window. -/
structure EncStep (σ : Type) where
  ok : Bool
  st : σ
  input' : List Nat
  written : List Nat

/-- The opaque encoder engine, as used by `compress_stream`:
`BrotliEncoderCompressStream` plus `BrotliEncoderHasMoreOutput` and
`BrotliEncoderIsFinished`. -/
structure EncEngine (σ : Type) where
  step : σ → EncOp → List Nat → Nat → EncStep σ
  hasMoreOutput : σ → Bool
  isFinished : σ → Bool

/-- Trace events of a driver run: an engine step (recording the return flag,
the remaining input length, the remaining window after the step, the
has-more-output signal and the bytes written), a buffer growth (with the new
window size), buffer cleanup, and buffer finalization. -/
inductive Ev where
  | step (ok : Bool) (availIn availOut : Nat) (hasMore : Bool) (written : List Nat)
  | grow (ok : Bool) (availOut : Nat)
  | cleanup
  | finish (ok : Bool) (availOut : Nat)
deriving DecidableEq, Repr

/-- Outcome of a `compress_stream` run: the produced bytes (`none` when the C
function returns `BROTLI_FALSE`), the final engine state, the final buffer
state, and the event trace. -/
structure CompressOut (σ : Type) where
  output : Option (List Nat)
  enc : σ
  buf : BlocksOutputBuffer
  trace : List Ev

/-- Prefix a run's trace with earlier events. -/
def consTrace {σ : Type} (evs : List Ev) :
    Option (CompressOut σ) → Option (CompressOut σ)
  | none => none
  | some o => some ⟨o.output, o.enc, o.buf, evs ++ o.trace⟩

/-- Tail of `compress_stream` (lines 305-311): on loop exit with `ok`, call
`BlocksOutputBuffer_Finish` with the current `available_out`. -/
def finishUp {σ : Type} (st : σ) (buf : BlocksOutputBuffer) (availOut : Nat)
    (allocOk : Bool) (evs : List Ev) : CompressOut σ :=
  match BlocksOutputBuffer_Finish buf availOut allocOk with
  | (some out, b2) => ⟨some out, st, b2, evs ++ [Ev.finish true availOut]⟩
  | (none, b2) => ⟨none, st, b2, evs ++ [Ev.finish false availOut]⟩

/-- The `while (ok)` loop of `compress_stream` (lines 282-301) together with
its exit code: step the engine; on failure break and clean up; grow when the
window is exhausted (aborting on allocation failure); continue while input
remains or the engine has more pending output; otherwise finish. -/
def compress_loop {σ : Type} (E : EncEngine σ) (op : EncOp) (allocs : List Bool) :
    Nat → σ → List Nat → BlocksOutputBuffer → Nat → Nat → Option (CompressOut σ)
  | 0, _, _, _, _, _ => none
  | fuel + 1, st, input, buf, availOut, aIdx =>
    let r := E.step st op input availOut
    let bs := r.written.take availOut
    let buf1 := writeWindow buf availOut bs
    let availOut1 := availOut - bs.length
    let hm := E.hasMoreOutput r.st
    let ev := Ev.step r.ok r.input'.length availOut1 hm bs
    if r.ok = false then
      some ⟨none, r.st, BlocksOutputBuffer_CleanUp buf1, [ev, Ev.cleanup]⟩
    else if availOut1 = 0 then
      match BlocksOutputBuffer_Grow buf1 (allocs.getD aIdx true) with
      | .error bfail => some ⟨none, r.st, bfail, [ev, Ev.grow false 0, Ev.cleanup]⟩
      | .ok (buf2, availOut2) =>
        if (!r.input'.isEmpty || hm) = true then
          consTrace [ev, Ev.grow true availOut2]
            (compress_loop E op allocs fuel r.st r.input' buf2 availOut2 (aIdx + 1))
        else
          some (finishUp r.st buf2 availOut2 (allocs.getD (aIdx + 1) true)
            [ev, Ev.grow true availOut2])
    else
      if (!r.input'.isEmpty || hm) = true then
        consTrace [ev] (compress_loop E op allocs fuel r.st r.input' buf1 availOut1 aIdx)
      else
        some (finishUp r.st buf1 availOut1 (allocs.getD aIdx true) [ev])

/-- `compress_stream` (lines 267-314): initialize the buffer (returning
failure if that allocation fails) and run the loop. -/
def compress_stream {σ : Type} (E : EncEngine σ) (op : EncOp) (st : σ)
    (input : List Nat) (fuel : Nat) (allocs : List Bool) :
    Option (CompressOut σ) :=
  match BlocksOutputBuffer_InitAndGrow (allocs.getD 0 true) with
  | none => some ⟨none, st, ⟨[], 0⟩, []⟩
  | some (buf, availOut) => compress_loop E op allocs fuel st input buf availOut 1

/-! ### Compressor method wrappers (lines 414-521) -/

/-- Result of one Python-level method call: the returned bytes (`none` when
an exception is raised), the object's engine handle afterwards, and the trace
of the driver run it performed (empty when no driver ran). -/
structure MethodOut (σ : Type) where
  ret : Option (List Nat)
  self : Option σ
  trace : List Ev

/-- `brotli_Compressor_process` (lines 414-444): a `NULL` engine handle fails
without touching the engine; otherwise run `compress_stream` with
`BROTLI_OPERATION_PROCESS`. -/
def brotli_Compressor_process {σ : Type} (E : EncEngine σ) (self : Option σ)
    (input : List Nat) (fuel : Nat) (allocs : List Bool) : Option (MethodOut σ) :=
  match self with
  | none => some ⟨none, none, []⟩
  | some st =>
    match compress_stream E EncOp.process st input fuel allocs with
    | none => none
    | some o => some ⟨o.output, some o.enc, o.trace⟩

/-- `brotli_Compressor_flush` (lines 460-479): like `process` with
`BROTLI_OPERATION_FLUSH` and empty input. -/
def brotli_Compressor_flush {σ : Type} (E : EncEngine σ) (self : Option σ)
    (fuel : Nat) (allocs : List Bool) : Option (MethodOut σ) :=
  match self with
  | none => some ⟨none, none, []⟩
  | some st =>
    match compress_stream E EncOp.flush st [] fuel allocs with
    | none => none
    | some o => some ⟨o.output, some o.enc, o.trace⟩

/-- `brotli_Compressor_finish` (lines 498-521): run `compress_stream` with
`BROTLI_OPERATION_FINISH` and empty input, then additionally require
`BrotliEncoderIsFinished`. -/
def brotli_Compressor_finish {σ : Type} (E : EncEngine σ) (self : Option σ)
    (fuel : Nat) (allocs : List Bool) : Option (MethodOut σ) :=
  match self with
  | none => some ⟨none, none, []⟩
  | some st =>
    match compress_stream E EncOp.finish st [] fuel allocs with
    | none => none
    | some o =>
      if (o.output.isSome && E.isFinished o.enc) = true then
        some ⟨o.output, some o.enc, o.trace⟩
      else
        some ⟨none, some o.enc, o.trace⟩

/-! ### Decoder engine interface and the decompression drivers -/

/-- The `BrotliDecoderResult` status values. -/
inductive BrotliDecoderResult where
  | error
  | success
  | needsMoreInput
  | needsMoreOutput
deriving DecidableEq, Repr

/-- Observable effect of one `BrotliDecoderDecompressStream` call. -/
structure DecStep (σ : Type) where
  result : BrotliDecoderResult
  st : σ
  input' : List Nat
  written : List Nat

/-- The opaque decoder engine: `BrotliDecoderDecompressStream` plus
`BrotliDecoderIsFinished`. -/
structure DecEngine (σ : Type) where
  step : σ → List Nat → Nat → DecStep σ
  isFinished : σ → Bool

/-- Outcome of a decompression run: produced bytes (`none` on failure), the
final `BrotliDecoderResult`, the remaining `available_in`, the final decoder
state, the final buffer state, and the event trace. -/
structure DecOut (σ : Type) where
  output : Option (List Nat)
  finalResult : BrotliDecoderResult
  availIn : Nat
  dec : σ
  buf : BlocksOutputBuffer
  trace : List Ev

/-- Prefix a decompression run's trace with earlier events. -/
def consDecTrace {σ : Type} (evs : List Ev) :
    Option (DecOut σ) → Option (DecOut σ)
  | none => none
  | some o => some ⟨o.output, o.finalResult, o.availIn, o.dec, o.buf, evs ++ o.trace⟩

/-- Common exit code of both decompression drivers: given the computed `ok`
flag, either finish the buffer or clean it up, surfacing an error. -/
def decExit {σ : Type} (okFlag : Bool) (result : BrotliDecoderResult)
    (availIn : Nat) (st : σ) (buf : BlocksOutputBuffer) (availOut : Nat)
    (allocOk : Bool) (evs : List Ev) : DecOut σ :=
  if okFlag = true then
    match BlocksOutputBuffer_Finish buf availOut allocOk with
    | (some out, b2) => ⟨some out, result, availIn, st, b2, evs ++ [Ev.finish true availOut]⟩
    | (none, b2) => ⟨none, result, availIn, st, b2, evs ++ [Ev.finish false availOut]⟩
  else
    ⟨none, result, availIn, st, BlocksOutputBuffer_CleanUp buf,
     evs ++ [Ev.cleanup]⟩

/-- The loop of `decompress_stream` (lines 595-608) with its exit code: loop
while the decoder reports `NEEDS_MORE_OUTPUT`, growing whenever the window is
exhausted (a failed growth forces the result to `ERROR`); afterwards
`ok = result != BROTLI_DECODER_RESULT_ERROR && !available_in`. -/
def decompress_loop {σ : Type} (D : DecEngine σ) (allocs : List Bool) :
    Nat → σ → List Nat → BlocksOutputBuffer → Nat → Nat → Option (DecOut σ)
  | 0, _, _, _, _, _ => none
  | fuel + 1, st, input, buf, availOut, aIdx =>
    let r := D.step st input availOut
    let bs := r.written.take availOut
    let buf1 := writeWindow buf availOut bs
    let availOut1 := availOut - bs.length
    let ev := Ev.step true r.input'.length availOut1 false bs
    if availOut1 = 0 then
      match BlocksOutputBuffer_Grow buf1 (allocs.getD aIdx true) with
      | .error bfail =>
        some ⟨none, .error, r.input'.length, r.st, bfail,
              [ev, Ev.grow false 0, Ev.cleanup]⟩
      | .ok (buf2, availOut2) =>
        if r.result = .needsMoreOutput then
          consDecTrace [ev, Ev.grow true availOut2]
            (decompress_loop D allocs fuel r.st r.input' buf2 availOut2 (aIdx + 1))
        else
          some (decExit (decide (r.result ≠ .error) && r.input'.isEmpty) r.result
            r.input'.length r.st buf2 availOut2 (allocs.getD (aIdx + 1) true)
            [ev, Ev.grow true availOut2])
    else
      if r.result = .needsMoreOutput then
        consDecTrace [ev]
          (decompress_loop D allocs fuel r.st r.input' buf1 availOut1 aIdx)
      else
        some (decExit (decide (r.result ≠ .error) && r.input'.isEmpty) r.result
          r.input'.length r.st buf1 availOut1 (allocs.getD aIdx true) [ev])

/-- `decompress_stream` (lines 580-621): initialize the buffer and run the
loop on the given decoder state. -/
def decompress_stream {σ : Type} (D : DecEngine σ) (st : σ) (input : List Nat)
    (fuel : Nat) (allocs : List Bool) : Option (DecOut σ) :=
  match BlocksOutputBuffer_InitAndGrow (allocs.getD 0 true) with
  | none => some ⟨none, .needsMoreOutput, input.length, st, ⟨[], 0⟩, []⟩
  | some (buf, availOut) => decompress_loop D allocs fuel st input buf availOut 1

/-- The loop of `brotli_decompress` (lines 852-872) with its exit code.  It
differs from `decompress_loop` in two ways faithful to the C: a failed growth
merely breaks out of the loop, leaving `result` unchanged, and success
requires `result == BROTLI_DECODER_RESULT_SUCCESS && !available_in`.  (When a
growth fails while `result` is already `SUCCESS` with no input left, the C
code would call `Finish` on the `NULL` list; with a working allocator this
path is unreachable.) -/
def brotli_decompress_loop {σ : Type} (D : DecEngine σ) (allocs : List Bool) :
    Nat → σ → List Nat → BlocksOutputBuffer → Nat → Nat → Option (DecOut σ)
  | 0, _, _, _, _, _ => none
  | fuel + 1, st, input, buf, availOut, aIdx =>
    let r := D.step st input availOut
    let bs := r.written.take availOut
    let buf1 := writeWindow buf availOut bs
    let availOut1 := availOut - bs.length
    let ev := Ev.step true r.input'.length availOut1 false bs
    if availOut1 = 0 then
      match BlocksOutputBuffer_Grow buf1 (allocs.getD aIdx true) with
      | .error bfail =>
        some (decExit (decide (r.result = .success) && r.input'.isEmpty) r.result
          r.input'.length r.st bfail availOut1 (allocs.getD (aIdx + 1) true)
          [ev, Ev.grow false 0])
      | .ok (buf2, availOut2) =>
        if r.result = .needsMoreOutput then
          consDecTrace [ev, Ev.grow true availOut2]
            (brotli_decompress_loop D allocs fuel r.st r.input' buf2 availOut2 (aIdx + 1))
        else
          some (decExit (decide (r.result = .success) && r.input'.isEmpty) r.result
            r.input'.length r.st buf2 availOut2 (allocs.getD (aIdx + 1) true)
            [ev, Ev.grow true availOut2])
    else
      if r.result = .needsMoreOutput then
        consDecTrace [ev]
          (brotli_decompress_loop D allocs fuel r.st r.input' buf1 availOut1 aIdx)
      else
        some (decExit (decide (r.result = .success) && r.input'.isEmpty) r.result
          r.input'.length r.st buf1 availOut1 (allocs.getD aIdx true) [ev])

/-- `brotli_decompress` (lines 821-879): the one-shot module function; it
creates its own decoder instance (passed here as `createdDec`), initializes
the buffer, and runs the one-shot loop. -/
def brotli_decompress {σ : Type} (D : DecEngine σ) (createdDec : σ)
    (input : List Nat) (fuel : Nat) (allocs : List Bool) : Option (DecOut σ) :=
  match BlocksOutputBuffer_InitAndGrow (allocs.getD 0 true) with
  | none => some ⟨none, .needsMoreOutput, input.length, createdDec, ⟨[], 0⟩, []⟩
  | some (buf, availOut) =>
    brotli_decompress_loop D allocs fuel createdDec input buf availOut 1

/-! ### Decompressor method wrappers (lines 692-748) -/

/-- `brotli_Decompressor_process` (lines 692-721): a `NULL` decoder handle
fails without touching the engine; otherwise run `decompress_stream`. -/
def brotli_Decompressor_process {σ : Type} (D : DecEngine σ) (self : Option σ)
    (input : List Nat) (fuel : Nat) (allocs : List Bool) : Option (MethodOut σ) :=
  match self with
  | none => some ⟨none, none, []⟩
  | some st =>
    match decompress_stream D st input fuel allocs with
    | none => none
    | some o => some ⟨o.output, some o.dec, o.trace⟩

/-- `brotli_Decompressor_is_finished` (lines 737-748): a `NULL` decoder
handle raises; otherwise report `BrotliDecoderIsFinished`. -/
def brotli_Decompressor_is_finished {σ : Type} (D : DecEngine σ)
    (self : Option σ) : Option Bool :=
  match self with
  | none => none
  | some st => some (D.isFinished st)

/-! ### Argument convertors and compressor construction (lines 194-392) -/

/-- A Python object passed as a keyword argument: an integer, or something
that fails `PyInt_Check`. -/
inductive PyVal where
  | int (v : Int)
  | notInt
deriving DecidableEq, Repr

def PyInt_Check : PyVal → Bool
  | .int _ => true
  | .notInt => false

def PyInt_AsLong : PyVal → Int
  | .int v => v
  | .notInt => -1

/-- `as_bounded_int` (lines 194-201): reject values outside
`[lower_bound, upper_bound]`. -/
def as_bounded_int (o : PyVal) (lower_bound upper_bound : Int) : Option Int :=
  let value := PyInt_AsLong o
  if value < lower_bound || value > upper_bound then none else some value

/-- Modelled from the spec: the `BROTLI_MODE_*` constants of the engine's
public header (repository code outside `src/`); the spec admits exactly the
three modes GENERIC, TEXT and FONT. -/
def BROTLI_MODE_GENERIC : Int := 0

def BROTLI_MODE_TEXT : Int := 1

def BROTLI_MODE_FONT : Int := 2

/-- `mode_convertor` (lines 203-223). -/
def mode_convertor (o : PyVal) : Option Int :=
  if PyInt_Check o = false then none
  else
    match as_bounded_int o 0 255 with
    | none => none
    | some mode =>
      if mode ≠ BROTLI_MODE_GENERIC ∧ mode ≠ BROTLI_MODE_TEXT ∧
          mode ≠ BROTLI_MODE_FONT then none
      else some mode

/-- `quality_convertor` (lines 225-237). -/
def quality_convertor (o : PyVal) : Option Int :=
  if PyInt_Check o = false then none
  else as_bounded_int o 0 11

/-- `lgwin_convertor` (lines 239-251). -/
def lgwin_convertor (o : PyVal) : Option Int :=
  if PyInt_Check o = false then none
  else as_bounded_int o 10 24

/-- `lgblock_convertor` (lines 253-265). -/
def lgblock_convertor (o : PyVal) : Option Int :=
  if PyInt_Check o = false then none
  else
    match as_bounded_int o 0 24 with
    | none => none
    | some lgblock => if lgblock ≠ 0 ∧ lgblock < 16 then none else some lgblock

/-- The encoder parameters settable through `BrotliEncoderSetParameter`. -/
inductive BrotliEncoderParameter where
  | mode
  | quality
  | lgwin
  | lgblock
deriving DecidableEq, Repr

/-- Keyword arguments of `Compressor(...)`; `none` means the argument was
omitted (the C sentinel `-1` stays in place). -/
structure CompressorArgs where
  mode : Option PyVal
  quality : Option PyVal
  lgwin : Option PyVal
  lgblock : Option PyVal
deriving DecidableEq, Repr

/-- The `PyArg_ParseTupleAndKeywords` call of `brotli_Compressor_init` (lines
371-376): apply the four convertors in order; the first failure aborts. -/
def parseCompressorArgs (a : CompressorArgs) :
    Option (Option Int × Option Int × Option Int × Option Int) := do
  let m ← match a.mode with
          | none => some none
          | some o => (mode_convertor o).map some
  let q ← match a.quality with
          | none => some none
          | some o => (quality_convertor o).map some
  let w ← match a.lgwin with
          | none => some none
          | some o => (lgwin_convertor o).map some
  let b ← match a.lgblock with
          | none => some none
          | some o => (lgblock_convertor o).map some
  some (m, q, w, b)

/-- The `brotli_Compressor` object: whether `BrotliEncoderCreateInstance`
returned a non-`NULL` handle, and the parameters set on the engine so far. -/
structure brotli_Compressor where
  enc : Bool
  params : List (BrotliEncoderParameter × Int)
deriving DecidableEq, Repr

/-- `brotli_Compressor_new` (lines 351-360): `tp_new` allocates the engine
instance before `tp_init` ever runs. -/
def brotli_Compressor_new (encAllocOk : Bool) : brotli_Compressor :=
  ⟨encAllocOk, []⟩

/-- `brotli_Compressor_init` (lines 362-392): parse and validate the
arguments (failing with `brotli.error` on any invalid one), fail if the
engine handle is `NULL`, then set each supplied parameter. -/
def brotli_Compressor_init (self : brotli_Compressor) (args : CompressorArgs) :
    Option brotli_Compressor :=
  match parseCompressorArgs args with
  | none => none
  | some (m, q, w, b) =>
    if self.enc = false then none
    else
      let p0 : List (BrotliEncoderParameter × Int) := []
      let p1 := match m with
                | none => p0
                | some v => p0 ++ [(BrotliEncoderParameter.mode, v)]
      let p2 := match q with
                | none => p1
                | some v => p1 ++ [(BrotliEncoderParameter.quality, v)]
      let p3 := match w with
                | none => p2
                | some v => p2 ++ [(BrotliEncoderParameter.lgwin, v)]
      let p4 := match b with
                | none => p3
                | some v => p3 ++ [(BrotliEncoderParameter.lgblock, v)]
      some ⟨self.enc, self.params ++ p4⟩

/-- Outcome of evaluating `Compressor(...)`: the constructed object if
construction succeeded, and whether the engine instance had been allocated
by `tp_new` (regardless of the later validation outcome). -/
structure ConstructOut where
  self : Option brotli_Compressor
  engineAllocated : Bool
deriving DecidableEq, Repr

/-- A Python call `Compressor(**args)`: the interpreter runs `tp_new`
(allocating the engine instance) and then `tp_init` (validating the
arguments). -/
def Compressor_construct (encAllocOk : Bool) (args : CompressorArgs) :
    ConstructOut :=
  let self := brotli_Compressor_new encAllocOk
  match brotli_Compressor_init self args with
  | none => ⟨none, self.enc⟩
  | some s => ⟨some s, self.enc⟩

/-! ### Spec-modelled engine instances -/

/-- Modelled from the spec: the engine's single-shot finalization semantics
(the repository's codec library is outside `src/`) — after a FINISH
operation completes, the engine cannot be reset, and every further step on a
finished engine fails. -/
def FinalizedEncoder {σ : Type} (E : EncEngine σ) : Prop :=
  ∀ st op input availOut, E.isFinished st = true →
    (E.step st op input availOut).ok = false

/-- Modelled from the spec: an engine satisfying the spec's step contract
(the repository's codec library is outside `src/`) — this instance is the
identity codec: a step consumes all input into an internal pending list and
writes as much pending data as fits into the window;
`has_more_pending_output` reports a nonempty pending list. -/
def idEnc : EncEngine (List Nat) where
  step := fun st _op input availOut =>
    let pend := st ++ input
    ⟨true, pend.drop availOut, [], pend.take availOut⟩
  hasMoreOutput := fun st => !st.isEmpty
  isFinished := fun st => st.isEmpty

/-- Modelled from the spec: the decoder half of the identity codec — a step
consumes all input, writes as much as fits, and reports `SUCCESS` exactly
when nothing remains pending (else `NEEDS_MORE_OUTPUT`). -/
def idDec : DecEngine (List Nat) where
  step := fun st input availOut =>
    let pend := st ++ input
    ⟨if pend.length ≤ availOut then .success else .needsMoreOutput,
     pend.drop availOut, [], pend.take availOut⟩
  isFinished := fun st => st.isEmpty

/-- Modelled from the spec: `compress_one_shot` drives `compress_stream`
with a fresh engine and the FINISH operation (the repository exposes one-shot
compression through the Python layer, outside `src/`). -/
def compress_one_shot (S : List Nat) : Option (List Nat) :=
  match compress_stream idEnc EncOp.finish [] S (S.length + 1) [] with
  | some o => o.output
  | none => none

/-- One-shot decompression through `brotli_decompress` with a fresh identity
decoder. -/
def decompress_one_shot (B : List Nat) : Option (List Nat) :=
  match brotli_decompress idDec [] B (B.length + 1) [] with
  | some o => o.output
  | none => none

/-! ### Concrete engines used to instantiate hypotheses -/

/-- A minimal finalized-compliant encoder: the state is the finished flag; a
step fails exactly on a finished engine, and a FINISH step finishes it. -/
def finEnc : EncEngine Bool where
  step := fun s op _input _availOut => ⟨!s, s || decide (op = EncOp.finish), [], []⟩
  hasMoreOutput := fun _ => false
  isFinished := fun s => s

/-- A decoder stub that consumes all input, writes nothing, and always
reports `NEEDS_MORE_INPUT`. -/
def stubDec : DecEngine Unit where
  step := fun _ _ _ => ⟨.needsMoreInput, (), [], []⟩
  isFinished := fun _ => false

/-- A decoder stub that consumes all input, writes two bytes, and reports
`SUCCESS`. -/
def okDec : DecEngine Unit where
  step := fun _ _ _ => ⟨.success, (), [], [9, 9]⟩
  isFinished := fun _ => true

/-- An encoder stub that consumes all input, writes two bytes, succeeds, and
never has pending output. -/
def mockE : EncEngine Unit where
  step := fun _ _ _ _ => ⟨true, (), [], [7, 7]⟩
  hasMoreOutput := fun _ => false
  isFinished := fun _ => false

/-- An encoder stub whose step always fails. -/
def badE : EncEngine Unit where
  step := fun _ _ _ _ => ⟨false, (), [], []⟩
  hasMoreOutput := fun _ => false
  isFinished := fun _ => false

/-! ### Trace checkers -/

/-- Whether an event is a successful step that exhausted the window (after
which the C loop must grow). -/
def needsGrow : Ev → Bool
  | .step true _ 0 _ _ => true
  | _ => false

/-- Adjacent-pair discipline: a successful window-exhausting step is followed
by a growth, and a growth is preceded by exactly such a step. -/
def okPair : Ev → Ev → Bool
  | .step true _ 0 _ _, .grow _ _ => true
  | .step true _ 0 _ _, _ => false
  | _, .grow _ _ => false
  | _, _ => true

/-- Scan a trace for the adjacent-pair discipline; a trailing
window-exhausting step (with no growth after it) is also rejected. -/
def chkPairs : List Ev → Bool
  | [] => true
  | [e] => !needsGrow e
  | e1 :: e2 :: rest => okPair e1 e2 && chkPairs (e2 :: rest)

/-- Exit discipline on a reversed trace: the last events (read backwards)
are a finalization, optionally preceded by one growth, preceded by a step
that left no input and no pending output; finalization uses the window size
current at that point. -/
def goodExitRev : List Ev → Bool
  | Ev.finish _ ao2 :: Ev.step true 0 ao false _ :: _ => decide (ao2 = ao)
  | Ev.finish _ ao2 :: Ev.grow true ao :: Ev.step true 0 0 false _ :: _ =>
      decide (ao2 = ao)
  | _ => false

/-- A successful run must end with a step that left no input and no pending
output, followed (possibly through one growth) by finalization with the
window size current at that point. -/
def goodExit (l : List Ev) : Bool := goodExitRev l.reverse

def isFailedStep : Ev → Bool
  | .step false _ _ _ _ => true
  | _ => false

def isGrowFail : Ev → Bool
  | .grow false _ => true
  | _ => false

def isFinishFail : Ev → Bool
  | .finish false _ => true
  | _ => false

/-- Whether a trace starts with a step event. -/
def headIsStep : List Ev → Bool
  | Ev.step _ _ _ _ _ :: _ => true
  | _ => false

/-- Well-formedness of a buffer together with its current window: the list is
nonempty, every block's payload has exactly its allocated size, and the
window fits inside the last block.  This holds after `InitAndGrow` and is
preserved by window writes and by `Grow`. -/
def BufWF (buf : BlocksOutputBuffer) (availOut : Nat) : Prop :=
  buf.list ≠ [] ∧ (∀ c ∈ buf.list, c.data.length = c.cap) ∧
    availOut ≤ (lastChunk buf.list).cap

/-! ### Lemmas about the block list -/

theorem lastChunk_singleton (c : Chunk) : lastChunk [c] = c := rfl

theorem lastChunk_cons_cons (c c2 : Chunk) (rest : List Chunk) :
    lastChunk (c :: c2 :: rest) = lastChunk (c2 :: rest) := by
  simp [lastChunk, List.getLastD_eq_getLast?]

theorem lastChunk_concat (l : List Chunk) (c : Chunk) :
    lastChunk (l ++ [c]) = c := by
  simp [lastChunk, List.getLastD_eq_getLast?]

theorem lastChunk_cap_le_sum (l : List Chunk) (hne : l ≠ []) :
    (lastChunk l).cap ≤ (l.map Chunk.cap).sum := by
  induction l with
  | nil => exact absurd rfl hne
  | cons c t ih =>
    cases t with
    | nil => simp [lastChunk_singleton]
    | cons c2 rest =>
      rw [lastChunk_cons_cons]
      calc (lastChunk (c2 :: rest)).cap ≤ ((c2 :: rest).map Chunk.cap).sum :=
            ih (by simp)
        _ ≤ ((c :: c2 :: rest).map Chunk.cap).sum := by simp

/-- The copy loop, in closed form: all blocks but the last in full, the last
truncated to `cap - avail_out`. -/
theorem copyBlocks_eq (l : List Chunk) (ao : Nat)
    (hfull : ∀ c ∈ l, c.data.length = c.cap) (hne : l ≠ []) :
    copyBlocks l ao =
      (l.dropLast.map Chunk.data).flatten ++
        (lastChunk l).data.take ((lastChunk l).cap - ao) := by
  induction l with
  | nil => exact absurd rfl hne
  | cons c t ih =>
    cases t with
    | nil => simp [copyBlocks, lastChunk_singleton]
    | cons c2 rest =>
      have hc : c.data.length = c.cap := hfull c (by simp)
      have ih2 := ih (fun x hx => hfull x (by simp [hx])) (by simp)
      rw [copyBlocks, ih2, lastChunk_cons_cons]
      rw [List.take_of_length_le (le_of_eq hc)]
      simp [List.dropLast]

/-- Total number of bytes produced by the copy loop. -/
theorem copyBlocks_length (l : List Chunk) (ao : Nat)
    (hfull : ∀ c ∈ l, c.data.length = c.cap) (hne : l ≠ [])
    (hao : ao ≤ (lastChunk l).cap) :
    (copyBlocks l ao).length = (l.map Chunk.cap).sum - ao := by
  induction l with
  | nil => exact absurd rfl hne
  | cons c t ih =>
    cases t with
    | nil =>
      rw [lastChunk_singleton] at hao
      have hc : c.data.length = c.cap := hfull c (by simp)
      rw [copyBlocks, List.length_take, hc]
      have hsum : ([c].map Chunk.cap).sum = c.cap := by simp
      rw [hsum]
      omega
    | cons c2 rest =>
      have hc : c.data.length = c.cap := hfull c (by simp)
      rw [lastChunk_cons_cons] at hao
      have ih2 := ih (fun x hx => hfull x (by simp [hx])) (by simp) hao
      have hlast : (lastChunk (c2 :: rest)).cap ≤ ((c2 :: rest).map Chunk.cap).sum :=
        lastChunk_cap_le_sum (c2 :: rest) (by simp)
      rw [copyBlocks, List.length_append, ih2,
        List.take_of_length_le (le_of_eq hc), hc]
      have hsum : ((c :: c2 :: rest).map Chunk.cap).sum =
          c.cap + ((c2 :: rest).map Chunk.cap).sum := by simp
      rw [hsum]
      omega

theorem writeLast_ne_nil (l : List Chunk) (ao : Nat) (bs : List Nat)
    (hne : l ≠ []) : writeLast l ao bs ≠ [] := by
  cases l with
  | nil => exact absurd rfl hne
  | cons c t => cases t <;> simp [writeLast]

/-- A window write leaves every block at its allocated size. -/
theorem writeLast_full (l : List Chunk) (ao : Nat) (bs : List Nat)
    (hfull : ∀ c ∈ l, c.data.length = c.cap) (hbs : bs.length ≤ ao)
    (hao : ao ≤ (lastChunk l).cap) :
    ∀ c ∈ writeLast l ao bs, c.data.length = c.cap := by
  induction l with
  | nil => simp [writeLast]
  | cons c t ih =>
    cases t with
    | nil =>
      rw [lastChunk_singleton] at hao
      have hc : c.data.length = c.cap := hfull c (by simp)
      intro x hx
      simp only [writeLast, List.mem_singleton] at hx
      subst hx
      simp only [List.length_append, List.length_take, List.length_drop, hc]
      omega
    | cons c2 rest =>
      rw [lastChunk_cons_cons] at hao
      intro x hx
      rw [writeLast] at hx
      rcases List.mem_cons.mp hx with h | h
      · simp only [h]; exact hfull c (by simp)
      · exact ih (fun y hy => hfull y (by simp [hy])) hao x h

/-- A window write preserves the last block's allocated size. -/
theorem lastChunk_writeLast_cap (l : List Chunk) (ao : Nat) (bs : List Nat)
    (hne : l ≠ []) :
    (lastChunk (writeLast l ao bs)).cap = (lastChunk l).cap := by
  induction l with
  | nil => exact absurd rfl hne
  | cons c t ih =>
    cases t with
    | nil => simp [writeLast, lastChunk_singleton]
    | cons c2 rest =>
      rw [writeLast, lastChunk_cons_cons]
      have h2 := ih (by simp)
      cases hw : writeLast (c2 :: rest) ao bs with
      | nil => exact absurd hw (writeLast_ne_nil _ _ _ (by simp))
      | cons w ws => rw [lastChunk_cons_cons, ← hw]; exact h2

/-- Key assembly fact: writing `bs` into the window and shrinking the window
accordingly extends the bytes the copy loop produces by exactly `bs`. -/
theorem copyBlocks_writeLast (l : List Chunk) (ao : Nat) (bs : List Nat)
    (hfull : ∀ c ∈ l, c.data.length = c.cap) (hne : l ≠ [])
    (hbs : bs.length ≤ ao) (hao : ao ≤ (lastChunk l).cap) :
    copyBlocks (writeLast l ao bs) (ao - bs.length) = copyBlocks l ao ++ bs := by
  induction l with
  | nil => exact absurd rfl hne
  | cons c t ih =>
    cases t with
    | nil =>
      rw [lastChunk_singleton] at hao
      have hc : c.data.length = c.cap := hfull c (by simp)
      rw [writeLast, copyBlocks, copyBlocks]
      have h1 : c.cap - (ao - bs.length) = (c.cap - ao) + bs.length := by omega
      rw [h1]
      have h2 : (c.data.take (c.cap - ao)).length = c.cap - ao := by
        rw [List.length_take]; omega
      have h3 : (c.cap - ao) + bs.length =
          (c.data.take (c.cap - ao)).length + bs.length := by rw [h2]
      rw [h3, List.append_assoc, List.take_append bs.length,
        List.take_left bs]
    | cons c2 rest =>
      rw [lastChunk_cons_cons] at hao
      have ih2 := ih (fun y hy => hfull y (by simp [hy])) (by simp) hao
      rw [writeLast]
      cases hw : writeLast (c2 :: rest) ao bs with
      | nil => exact absurd hw (writeLast_ne_nil _ _ _ (by simp))
      | cons w ws =>
        rw [copyBlocks, copyBlocks, ← hw, ih2, List.append_assoc]

/-- Appending a fresh block and taking it whole as the window does not change
the bytes the copy loop produces. -/
theorem copyBlocks_concat_newBlock (l : List Chunk) (n : Nat) :
    copyBlocks (l ++ [newBlock n]) n = copyBlocks l 0 := by
  induction l with
  | nil => simp [copyBlocks, newBlock]
  | cons c t ih =>
    cases t with
    | nil => simp [copyBlocks, newBlock]
    | cons c2 rest =>
      rw [List.cons_append, List.cons_append, copyBlocks, copyBlocks]
      rw [List.cons_append] at ih
      rw [ih]

/-! ### Lemmas about the schedule and growth -/

theorem sched_pos_aux : ∀ m < 17, 0 < BUFFER_BLOCK_SIZE.getD m 0 := by decide

theorem blockSizeFor_eq (n : Nat) : blockSizeFor n = schedCap n := by
  have hlen : BUFFER_BLOCK_SIZE.length = 17 := rfl
  by_cases h : n < BUFFER_BLOCK_SIZE.length
  · have h17 : n < 17 := hlen ▸ h
    rw [blockSizeFor, if_pos h, schedCap]
    have h16 : min n 16 = n := by omega
    rw [h16]
  · have h17 : ¬ n < 17 := fun hc => h (hlen ▸ hc)
    rw [blockSizeFor, if_neg h, schedCap, hlen]
    have h16 : min n 16 = 16 := by omega
    rw [h16]

theorem schedCap_pos (i : Nat) : 0 < schedCap i := by
  rw [schedCap]
  exact sched_pos_aux (min i 16) (by omega)

theorem blockSizeFor_pos (n : Nat) : 0 < blockSizeFor n := by
  rw [blockSizeFor_eq]; exact schedCap_pos n

/-- Characterization of the buffer after `k` successful growths: the block
list is the first `k + 1` schedule blocks, the window is the size of the
last one, and `allocated` is the sum of the schedule prefix. -/
theorem growSeq_facts (k : Nat) :
    (growSeq k).1.list = (List.range (k + 1)).map (fun i => newBlock (schedCap i)) ∧
    (growSeq k).2 = schedCap k ∧
    (growSeq k).1.allocated = ((List.range (k + 1)).map schedCap).sum := by
  induction k with
  | zero =>
    refine ⟨?_, ?_, ?_⟩ <;>
      simp [growSeq, BlocksOutputBuffer_InitAndGrow, schedCap, List.range_succ]
  | succ k ih =>
    obtain ⟨h1, h2, h3⟩ := ih
    have hlen : (growSeq k).1.list.length = k + 1 := by rw [h1]; simp
    have hg : growSeq (k + 1) =
        (⟨(growSeq k).1.list ++ [newBlock (blockSizeFor ((growSeq k).1.list.length))],
          (growSeq k).1.allocated + blockSizeFor ((growSeq k).1.list.length)⟩,
         blockSizeFor ((growSeq k).1.list.length)) := by
      rw [growSeq, BlocksOutputBuffer_Grow]
      simp
    rw [hg, hlen, blockSizeFor_eq]
    refine ⟨?_, rfl, ?_⟩
    · symm
      rw [List.range_succ, List.map_append, h1]
      simp
    · symm
      rw [List.range_succ, List.map_append, List.sum_append, ← h3]
      simp

theorem growSeq_full (k : Nat) :
    ∀ c ∈ (growSeq k).1.list, c.data.length = c.cap := by
  intro c hc
  rw [(growSeq_facts k).1] at hc
  obtain ⟨i, _hi, hci⟩ := List.mem_map.mp hc
  rw [← hci]
  simp [newBlock]

theorem growSeq_ne_nil (k : Nat) : (growSeq k).1.list ≠ [] := by
  rw [(growSeq_facts k).1]
  simp [List.range_succ]

theorem growSeq_lastChunk (k : Nat) :
    lastChunk (growSeq k).1.list = newBlock (schedCap k) := by
  rw [(growSeq_facts k).1, List.range_succ]
  simp [lastChunk_concat]

/-! ### Claim C6 -/

/-- C6: the block size sequence is exactly the spec's schedule (32Ki, 64Ki,
256Ki, 1Mi, 4Mi, 8Mi, 16Mi, 16Mi, 32Mi, 32Mi, 32Mi, 32Mi, 64Mi, 64Mi,
128Mi, 128Mi, 256Mi bytes), and for every `i ≤ k` the `i`-th chunk of the
buffer obtained by `init_and_grow` followed by `k` growths has capacity
`SCHEDULE[min(i, len(SCHEDULE)-1)]`; every chunk from index 16 onward has
capacity 256Mi. -/
theorem C6_chunk_capacity_schedule :
    BUFFER_BLOCK_SIZE =
      [32768, 65536, 262144, 1048576, 4194304, 8388608, 16777216, 16777216,
       33554432, 33554432, 33554432, 33554432, 67108864, 67108864, 134217728,
       134217728, 268435456] ∧
    ∀ k i, i ≤ k →
      ((growSeq k).1.list[i]?.map Chunk.cap) =
          some (BUFFER_BLOCK_SIZE.getD (min i (BUFFER_BLOCK_SIZE.length - 1)) 0) ∧
        (16 ≤ i → ((growSeq k).1.list[i]?.map Chunk.cap) = some (256 * MB)) := by
  refine ⟨by decide, ?_⟩
  intro k i hik
  have hlist := (growSeq_facts k).1
  have hi : i < k + 1 := by omega
  have hget : (growSeq k).1.list[i]? = some (newBlock (schedCap i)) := by
    rw [hlist, List.getElem?_map, List.getElem?_range hi]
    rfl
  have hcap : ((growSeq k).1.list[i]?.map Chunk.cap) = some (schedCap i) := by
    rw [hget]; rfl
  have hlen17 : BUFFER_BLOCK_SIZE.length - 1 = 16 := rfl
  constructor
  · rw [hcap, hlen17, schedCap]
  · intro h16
    rw [hcap, schedCap]
    have hmin : min i 16 = 16 := by omega
    rw [hmin]
    decide

/-- Witness for C6 at `k = 1`, `i = 1`. -/
theorem C6_chunk_capacity_schedule_witness :
    (1 : Nat) ≤ 1 ∧
      (((growSeq 1).1.list[1]?.map Chunk.cap) =
          some (BUFFER_BLOCK_SIZE.getD (min 1 (BUFFER_BLOCK_SIZE.length - 1)) 0) ∧
        (16 ≤ 1 → ((growSeq 1).1.list[1]?.map Chunk.cap) = some (256 * MB))) :=
  ⟨le_refl 1, C6_chunk_capacity_schedule.2 1 1 (le_refl 1)⟩

/-! ### Claim C7 -/

/-- C7: after `init_and_grow` and after every successful `grow`, the buffer
invariant holds: `allocated` equals the sum of the capacities of all chunks,
`allocated` is monotonically non-decreasing across growths, the returned
window covers the entire newly allocated chunk, and the logical stream
length (the bytes finalization would produce) is `allocated - avail_out`
for any window position `avail_out` inside the last chunk. -/
theorem C7_growth_invariants (k : Nat) :
    (growSeq k).1.allocated = ((growSeq k).1.list.map Chunk.cap).sum ∧
    (growSeq k).1.allocated ≤ (growSeq (k + 1)).1.allocated ∧
    (growSeq k).2 = (lastChunk (growSeq k).1.list).cap ∧
    ∀ ao, ao ≤ (growSeq k).2 →
      (copyBlocks (growSeq k).1.list ao).length = (growSeq k).1.allocated - ao := by
  obtain ⟨h1, h2, h3⟩ := growSeq_facts k
  have hsum : (growSeq k).1.allocated = ((growSeq k).1.list.map Chunk.cap).sum := by
    rw [h1, h3, List.map_map]
    congr 1
  refine ⟨hsum, ?_, ?_, ?_⟩
  · obtain ⟨h1', h2', h3'⟩ := growSeq_facts (k + 1)
    rw [h3, h3']
    have hr : List.range (k + 1 + 1) = List.range (k + 1) ++ [k + 1] :=
      List.range_succ (k + 1)
    rw [hr, List.map_append, List.sum_append]
    omega
  · rw [h2, growSeq_lastChunk k]
    rfl
  · intro ao hao
    rw [h2] at hao
    have hlastcap : (lastChunk (growSeq k).1.list).cap = schedCap k := by
      rw [growSeq_lastChunk k]; rfl
    rw [copyBlocks_length (growSeq k).1.list ao (growSeq_full k) (growSeq_ne_nil k)
      (by rw [hlastcap]; exact hao), ← hsum]

/-- Witness for C7 at `k = 0`, `ao = 0`. -/
theorem C7_growth_invariants_witness :
    (growSeq 0).1.allocated = ((growSeq 0).1.list.map Chunk.cap).sum ∧
    (growSeq 0).1.allocated ≤ (growSeq (0 + 1)).1.allocated ∧
    (growSeq 0).2 = (lastChunk (growSeq 0).1.list).cap ∧
    ((0 : Nat) ≤ (growSeq 0).2 ∧
      (copyBlocks (growSeq 0).1.list 0).length = (growSeq 0).1.allocated - 0) := by
  obtain ⟨a, b, c, d⟩ := C7_growth_invariants 0
  exact ⟨a, b, c, Nat.zero_le _, d 0 (Nat.zero_le _)⟩

/-! ### Claim C1 -/

/-- C1: for every buffer state satisfying the reachable-state invariants
(nonempty chunk list, full payloads, `avail_out` within the last chunk,
`allocated` the sum of capacities), `finish(avail_out)` returns a byte
string of length exactly `allocated - avail_out`, equal to the concatenation
of every chunk before the last taken in full followed by the last chunk
truncated to `capacity - avail_out`, and it releases the chunk list; in
particular a zero-length result (single chunk, `avail_out` equal to its
whole capacity) is returned without error. -/
theorem C1_finish_assembles (buf : BlocksOutputBuffer) (avail_out : Nat)
    (hne : buf.list ≠ []) (hfull : ∀ c ∈ buf.list, c.data.length = c.cap)
    (hao : avail_out ≤ (lastChunk buf.list).cap)
    (hsum : buf.allocated = (buf.list.map Chunk.cap).sum) :
    (BlocksOutputBuffer_Finish buf avail_out true).1 =
      some ((buf.list.dropLast.map Chunk.data).flatten ++
        (lastChunk buf.list).data.take ((lastChunk buf.list).cap - avail_out)) ∧
    (∀ out, (BlocksOutputBuffer_Finish buf avail_out true).1 = some out →
      out.length = buf.allocated - avail_out) ∧
    (BlocksOutputBuffer_Finish buf avail_out true).2.list = [] ∧
    (avail_out = (lastChunk buf.list).cap ∧ buf.list.length = 1 →
      (BlocksOutputBuffer_Finish buf avail_out true).1 = some []) := by
  have hfin : BlocksOutputBuffer_Finish buf avail_out true =
      (some (copyBlocks buf.list avail_out), ⟨[], buf.allocated⟩) := by
    rw [BlocksOutputBuffer_Finish, if_pos rfl]
  refine ⟨?_, ?_, ?_, ?_⟩
  · rw [hfin, copyBlocks_eq buf.list avail_out hfull hne]
  · intro out hout
    rw [hfin] at hout
    have : out = copyBlocks buf.list avail_out := by
      exact (Option.some.inj hout).symm
    rw [this, copyBlocks_length buf.list avail_out hfull hne hao, hsum]
  · rw [hfin]
  · rintro ⟨haoeq, hlen1⟩
    obtain ⟨c, hc⟩ : ∃ c, buf.list = [c] := by
      cases hl : buf.list with
      | nil => exact absurd hl hne
      | cons x t =>
        cases t with
        | nil => exact ⟨x, rfl⟩
        | cons y r => rw [hl] at hlen1; simp at hlen1
    rw [hfin, hc]
    rw [hc, lastChunk_singleton] at haoeq
    rw [copyBlocks, haoeq]
    simp

/-! ### Lemmas about the compression driver loop -/

theorem grow_error_list (b : BlocksOutputBuffer) (a : Bool) (bf : BlocksOutputBuffer)
    (h : BlocksOutputBuffer_Grow b a = .error bf) : bf.list = [] := by
  rw [BlocksOutputBuffer_Grow] at h
  cases a with
  | true => simp at h
  | false =>
    simp at h
    rw [← h]

theorem headIsStep_decomp (t : List Ev) (h : headIsStep t = true) :
    ∃ a b c d e t', t = Ev.step a b c d e :: t' := by
  cases t with
  | nil => simp [headIsStep] at h
  | cons x t' =>
    cases x with
    | step a b c d e => exact ⟨a, b, c, d, e, t', rfl⟩
    | grow a b => simp [headIsStep] at h
    | cleanup => simp [headIsStep] at h
    | finish a b => simp [headIsStep] at h

theorem goodExitRev_append (l l2 : List Ev) (h : goodExitRev l = true) :
    goodExitRev (l ++ l2) = true := by
  rw [goodExitRev.eq_def] at h
  split at h
  · rw [List.cons_append, List.cons_append, goodExitRev]
    exact h
  · rw [List.cons_append, List.cons_append, List.cons_append, goodExitRev]
    exact h
  · exact absurd h (by simp)

/-! Small evaluation lemmas for the trace checkers, one per constructor shape
appearing in driver traces. -/

theorem chkPairs_two (e1 e2 : Ev) (t : List Ev) :
    chkPairs (e1 :: e2 :: t) = (okPair e1 e2 && chkPairs (e2 :: t)) := rfl

theorem chkPairs_one (e : Ev) : chkPairs [e] = !needsGrow e := rfl

theorem needsGrow_cleanup : needsGrow Ev.cleanup = false := rfl

theorem needsGrow_finish (f : Bool) (ao : Nat) : needsGrow (Ev.finish f ao) = false := rfl

theorem okPair_step0_grow (a : Nat) (hm : Bool) (w : List Nat) (g : Bool) (ao : Nat) :
    okPair (Ev.step true a 0 hm w) (Ev.grow g ao) = true := rfl

theorem okPair_grow_step (g : Bool) (ao : Nat) (ok : Bool) (ai ao2 : Nat)
    (hm : Bool) (w : List Nat) :
    okPair (Ev.grow g ao) (Ev.step ok ai ao2 hm w) = true := rfl

theorem okPair_grow_cleanup (g : Bool) (ao : Nat) :
    okPair (Ev.grow g ao) Ev.cleanup = true := rfl

theorem okPair_grow_finish (g : Bool) (ao : Nat) (f : Bool) (ao2 : Nat) :
    okPair (Ev.grow g ao) (Ev.finish f ao2) = true := rfl

theorem okPair_stepsucc_step (a n : Nat) (hm : Bool) (w : List Nat) (ok : Bool)
    (ai ao2 : Nat) (hm2 : Bool) (w2 : List Nat) :
    okPair (Ev.step true a (n + 1) hm w) (Ev.step ok ai ao2 hm2 w2) = true := rfl

theorem okPair_stepsucc_finish (a n : Nat) (hm : Bool) (w : List Nat) (f : Bool)
    (ao : Nat) :
    okPair (Ev.step true a (n + 1) hm w) (Ev.finish f ao) = true := rfl

theorem okPair_stepfalse_cleanup (a b : Nat) (hm : Bool) (w : List Nat) :
    okPair (Ev.step false a b hm w) Ev.cleanup = true := rfl

theorem isGrowFail_step (ok : Bool) (a b : Nat) (hm : Bool) (w : List Nat) :
    isGrowFail (Ev.step ok a b hm w) = false := rfl

theorem isGrowFail_growTrue (ao : Nat) : isGrowFail (Ev.grow true ao) = false := rfl

theorem isGrowFail_cleanup : isGrowFail Ev.cleanup = false := rfl

theorem isGrowFail_finish (f : Bool) (ao : Nat) : isGrowFail (Ev.finish f ao) = false := rfl

theorem isFinishFail_step (ok : Bool) (a b : Nat) (hm : Bool) (w : List Nat) :
    isFinishFail (Ev.step ok a b hm w) = false := rfl

theorem isFinishFail_grow (g : Bool) (ao : Nat) : isFinishFail (Ev.grow g ao) = false := rfl

theorem isFinishFail_cleanup : isFinishFail Ev.cleanup = false := rfl

theorem isFinishFail_finishTrue (ao : Nat) : isFinishFail (Ev.finish true ao) = false := rfl

theorem isFailedStep_stepTrue (a b : Nat) (hm : Bool) (w : List Nat) :
    isFailedStep (Ev.step true a b hm w) = false := rfl

theorem isFailedStep_grow (g : Bool) (ao : Nat) : isFailedStep (Ev.grow g ao) = false := rfl

theorem isFailedStep_cleanup : isFailedStep Ev.cleanup = false := rfl

theorem isFailedStep_finish (f : Bool) (ao : Nat) : isFailedStep (Ev.finish f ao) = false := rfl

theorem goodExitRev_noGrow (f : Bool) (ao : Nat) (w : List Nat) (t : List Ev) :
    goodExitRev (Ev.finish f ao :: Ev.step true 0 ao false w :: t) = true := by
  rw [goodExitRev]
  simp

theorem goodExitRev_grow (f : Bool) (ao : Nat) (w : List Nat) (t : List Ev) :
    goodExitRev (Ev.finish f ao :: Ev.grow true ao :: Ev.step true 0 0 false w :: t) =
      true := by
  rw [goodExitRev]
  simp

/-- Structural properties of every terminating `compress_loop` run: the trace
starts with a step and has at least two events; growth happens exactly after
window-exhausting successful steps; a successful run exits through a step
that left no input and no pending output, followed by finalization at the
current window; a failed allocation yields no output and a released buffer;
a failed engine step yields no output and a cleanup. -/
theorem compress_loop_props {σ : Type} (E : EncEngine σ) (op : EncOp)
    (allocs : List Bool) :
    ∀ fuel st input buf availOut aIdx (o : CompressOut σ),
      compress_loop E op allocs fuel st input buf availOut aIdx = some o →
      headIsStep o.trace = true ∧
      2 ≤ o.trace.length ∧
      chkPairs o.trace = true ∧
      (o.output.isSome = true → goodExit o.trace = true) ∧
      ((o.trace.any isGrowFail || o.trace.any isFinishFail) = true →
        o.output = none ∧ o.buf.list = []) ∧
      (o.trace.any isFailedStep = true → o.output = none ∧ Ev.cleanup ∈ o.trace) := by
  intro fuel
  induction fuel with
  | zero =>
    intro st input buf availOut aIdx o h
    rw [compress_loop] at h
    exact absurd h (by simp)
  | succ fuel ih =>
    intro st input buf availOut aIdx o h
    rw [compress_loop] at h
    split at h
    next hok =>
      cases h
      refine ⟨rfl, by simp, ?_, ?_, ?_, ?_⟩
      · rw [hok]
        simp [chkPairs_two, chkPairs_one, okPair_stepfalse_cleanup, needsGrow_cleanup]
      · intro hs; simp at hs
      · intro hgf
        simp [isGrowFail_step, isGrowFail_cleanup, isFinishFail_step,
          isFinishFail_cleanup] at hgf
      · intro _; exact ⟨rfl, by simp⟩
    next hok =>
      rw [Bool.not_eq_false] at hok
      split at h
      next h0 =>
        split at h
        next bf hg =>
          cases h
          refine ⟨rfl, by simp, ?_, ?_, ?_, ?_⟩
          · rw [hok, h0]
            simp [chkPairs_two, chkPairs_one, okPair_step0_grow, okPair_grow_cleanup,
              needsGrow_cleanup]
          · intro hs; simp at hs
          · intro _; exact ⟨rfl, grow_error_list _ _ _ hg⟩
          · intro hfs
            rw [hok] at hfs
            simp [isFailedStep_stepTrue, isFailedStep_grow, isFailedStep_cleanup] at hfs
        next buf2 availOut2 hg =>
          split at h
          next hkg =>
            rw [consTrace.eq_def] at h
            split at h
            next hrec => simp at h
            next o' hrec =>
              cases h
              obtain ⟨ih1, ih2, ih3, ih4, ih5, ih6⟩ := ih _ _ _ _ _ _ hrec
              obtain ⟨a, b, c, d, e, t', ht⟩ := headIsStep_decomp _ ih1
              refine ⟨rfl, ?_, ?_, ?_, ?_, ?_⟩
              · simp only [List.length_append, List.length_cons, List.length_nil]
                omega
              · rw [ht] at ih3 ⊢
                rw [hok, h0]
                simp only [List.cons_append, List.nil_append, chkPairs_two,
                  okPair_step0_grow, okPair_grow_step, Bool.true_and]
                exact ih3
              · intro hs
                have h4 := ih4 hs
                rw [goodExit] at h4 ⊢
                rw [List.reverse_append]
                exact goodExitRev_append _ _ h4
              · intro hgf
                refine ih5 ?_
                simpa [isGrowFail_step, isGrowFail_growTrue, isFinishFail_step,
                  isFinishFail_grow] using hgf
              · intro hfs
                rw [hok] at hfs
                have h6 := ih6 (by
                  simpa [isFailedStep_stepTrue, isFailedStep_grow] using hfs)
                exact ⟨h6.1, by simp [h6.2]⟩
          next hkg =>
            cases h
            rw [Bool.not_eq_true] at hkg
            have hor : (!(E.step st op input availOut).input'.isEmpty) = false ∧
                E.hasMoreOutput (E.step st op input availOut).st = false := by
              cases hx : (!(E.step st op input availOut).input'.isEmpty) with
              | true => rw [hx] at hkg; simp at hkg
              | false =>
                cases hy : E.hasMoreOutput (E.step st op input availOut).st with
                | true => rw [hx, hy] at hkg; simp at hkg
                | false => exact ⟨rfl, rfl⟩
            have hempty : (E.step st op input availOut).input' = [] :=
              List.isEmpty_iff.mp (by simpa using hor.1)
            have hhm := hor.2
            cases hA : allocs.getD (aIdx + 1) true with
            | true =>
              refine ⟨rfl, by simp [finishUp, BlocksOutputBuffer_Finish], ?_, ?_, ?_, ?_⟩
              · rw [hok, h0]
                simp [finishUp, BlocksOutputBuffer_Finish, chkPairs_two, chkPairs_one,
                  okPair_step0_grow, okPair_grow_finish, needsGrow_finish]
              · intro _
                rw [hok, h0, hempty, hhm, goodExit]
                simp [finishUp, BlocksOutputBuffer_Finish, goodExitRev_grow]
              · intro hgf
                simp [finishUp, BlocksOutputBuffer_Finish, isGrowFail_step,
                  isGrowFail_growTrue, isGrowFail_finish, isFinishFail_step,
                  isFinishFail_grow, isFinishFail_finishTrue] at hgf
              · intro hfs
                rw [hok] at hfs
                simp [finishUp, BlocksOutputBuffer_Finish, isFailedStep_stepTrue,
                  isFailedStep_grow, isFailedStep_finish] at hfs
            | false =>
              refine ⟨rfl, by simp [finishUp, BlocksOutputBuffer_Finish], ?_, ?_, ?_, ?_⟩
              · rw [hok, h0]
                simp [finishUp, BlocksOutputBuffer_Finish, chkPairs_two, chkPairs_one,
                  okPair_step0_grow, okPair_grow_finish, needsGrow_finish]
              · intro hs
                simp [finishUp, BlocksOutputBuffer_Finish] at hs
              · intro _
                refine ⟨by simp [finishUp, BlocksOutputBuffer_Finish], ?_⟩
                simp [finishUp, BlocksOutputBuffer_Finish]
              · intro hfs
                rw [hok] at hfs
                simp [finishUp, BlocksOutputBuffer_Finish, isFailedStep_stepTrue,
                  isFailedStep_grow, isFailedStep_finish] at hfs
      next h0 =>
        obtain ⟨n, hn⟩ := Nat.exists_eq_succ_of_ne_zero h0
        split at h
        next hkg =>
          rw [consTrace.eq_def] at h
          split at h
          next hrec => simp at h
          next o' hrec =>
            cases h
            obtain ⟨ih1, ih2, ih3, ih4, ih5, ih6⟩ := ih _ _ _ _ _ _ hrec
            obtain ⟨a, b, c, d, e, t', ht⟩ := headIsStep_decomp _ ih1
            refine ⟨rfl, ?_, ?_, ?_, ?_, ?_⟩
            · simp only [List.length_append, List.length_cons, List.length_nil]
              omega
            · rw [ht] at ih3 ⊢
              rw [hok, hn]
              simp only [List.cons_append, List.nil_append, chkPairs_two,
                okPair_stepsucc_step, Bool.true_and]
              exact ih3
            · intro hs
              have h4 := ih4 hs
              rw [goodExit] at h4 ⊢
              rw [List.reverse_append]
              exact goodExitRev_append _ _ h4
            · intro hgf
              refine ih5 ?_
              simpa [isGrowFail_step, isFinishFail_step] using hgf
            · intro hfs
              rw [hok] at hfs
              have h6 := ih6 (by simpa [isFailedStep_stepTrue] using hfs)
              exact ⟨h6.1, by simp [h6.2]⟩
        next hkg =>
          cases h
          rw [Bool.not_eq_true] at hkg
          have hor : (!(E.step st op input availOut).input'.isEmpty) = false ∧
              E.hasMoreOutput (E.step st op input availOut).st = false := by
            cases hx : (!(E.step st op input availOut).input'.isEmpty) with
            | true => rw [hx] at hkg; simp at hkg
            | false =>
              cases hy : E.hasMoreOutput (E.step st op input availOut).st with
              | true => rw [hx, hy] at hkg; simp at hkg
              | false => exact ⟨rfl, rfl⟩
          have hempty : (E.step st op input availOut).input' = [] :=
            List.isEmpty_iff.mp (by simpa using hor.1)
          have hhm := hor.2
          cases hA : allocs.getD aIdx true with
          | true =>
            refine ⟨rfl, by simp [finishUp, BlocksOutputBuffer_Finish], ?_, ?_, ?_, ?_⟩
            · rw [hok, hn]
              simp [finishUp, BlocksOutputBuffer_Finish, chkPairs_two, chkPairs_one,
                okPair_stepsucc_finish, needsGrow_finish]
            · intro _
              rw [hok, hempty, hhm, goodExit]
              simp [finishUp, BlocksOutputBuffer_Finish, goodExitRev_noGrow]
            · intro hgf
              simp [finishUp, BlocksOutputBuffer_Finish, isGrowFail_step,
                isGrowFail_finish, isFinishFail_step, isFinishFail_finishTrue] at hgf
            · intro hfs
              rw [hok] at hfs
              simp [finishUp, BlocksOutputBuffer_Finish, isFailedStep_stepTrue,
                isFailedStep_finish] at hfs
          | false =>
            refine ⟨rfl, by simp [finishUp, BlocksOutputBuffer_Finish], ?_, ?_, ?_, ?_⟩
            · rw [hok, hn]
              simp [finishUp, BlocksOutputBuffer_Finish, chkPairs_two, chkPairs_one,
                okPair_stepsucc_finish, needsGrow_finish]
            · intro hs
              simp [finishUp, BlocksOutputBuffer_Finish] at hs
            · intro _
              refine ⟨by simp [finishUp, BlocksOutputBuffer_Finish], ?_⟩
              simp [finishUp, BlocksOutputBuffer_Finish]
            · intro hfs
              rw [hok] at hfs
              simp [finishUp, BlocksOutputBuffer_Finish, isFailedStep_stepTrue,
                isFailedStep_finish] at hfs

/-! ### Claim C2 -/

/-- C2: for any engine, operation and input, a terminating `compress_stream`
run satisfies the driver-loop discipline: `grow` is called exactly when
`available_out == 0` after a successful step (and never elsewhere); if a step
fails, the run aborts with cleanup and no output (the C caller then raises
the engine error); if a growth allocation fails, the run aborts with no
output; and a successful run exits the loop only after a step that left
`available_in == 0` and no pending output, and then calls
`finish(available_out)` with the window size current at that point. -/
theorem C2_compress_driver_loop {σ : Type} (E : EncEngine σ) (op : EncOp)
    (st : σ) (input : List Nat) (fuel : Nat) (allocs : List Bool)
    (o : CompressOut σ)
    (h : compress_stream E op st input fuel allocs = some o) :
    chkPairs o.trace = true ∧
    (o.output.isSome = true → goodExit o.trace = true) ∧
    (o.trace.any isFailedStep = true → o.output = none ∧ Ev.cleanup ∈ o.trace) ∧
    (o.trace.any isGrowFail = true → o.output = none) := by
  rw [compress_stream] at h
  split at h
  · cases h
    exact ⟨rfl, by intro hs; simp at hs, by intro hfs; simp at hfs,
      by intro hgf; simp at hgf⟩
  next buf0 availOut0 hinit =>
    obtain ⟨-, -, h3, h4, h5, h6⟩ := compress_loop_props E op allocs fuel st input
      buf0 availOut0 1 o h
    refine ⟨h3, h4, h6, ?_⟩
    intro hgf
    exact (h5 (by rw [hgf]; simp)).1

/-- Witness for C2 on a concrete engine run. -/
theorem C2_compress_driver_loop_witness :
    compress_stream mockE EncOp.process () [1, 2, 3] 3 [] =
      some ⟨some [7, 7], (), ⟨[], 32768⟩,
        [Ev.step true 0 32766 false [7, 7], Ev.finish true 32766]⟩ ∧
    (chkPairs [Ev.step true 0 32766 false [7, 7], Ev.finish true 32766] = true ∧
      goodExit [Ev.step true 0 32766 false [7, 7], Ev.finish true 32766] = true) := by
  have hrun : compress_stream mockE EncOp.process () [1, 2, 3] 3 [] =
      some ⟨some [7, 7], (), ⟨[], 32768⟩,
        [Ev.step true 0 32766 false [7, 7], Ev.finish true 32766]⟩ := rfl
  have hp := C2_compress_driver_loop mockE EncOp.process () [1, 2, 3] 3 [] _ hrun
  exact ⟨hrun, hp.1, hp.2.1 rfl⟩

/-! ### Claim C9 -/

/-- C9: if an allocation fails during `grow` or during `finish`, the
operation fails with an allocation error and the buffer releases all
previously allocated chunks before the error is surfaced: `grow` and
`finish` clear the block list on failure, and any terminating driver run
containing a failed growth or finalization produces no output and ends with
the chunk list released. -/
theorem C9_allocation_failure_releases :
    (∀ buf : BlocksOutputBuffer,
      BlocksOutputBuffer_Grow buf false = .error ⟨[], buf.allocated⟩) ∧
    (∀ (buf : BlocksOutputBuffer) (ao : Nat),
      BlocksOutputBuffer_Finish buf ao false = (none, ⟨[], buf.allocated⟩)) ∧
    (∀ (σ : Type) (E : EncEngine σ) (op : EncOp) (st : σ) (input : List Nat)
      (fuel : Nat) (allocs : List Bool) (o : CompressOut σ),
      compress_stream E op st input fuel allocs = some o →
      (o.trace.any isGrowFail || o.trace.any isFinishFail) = true →
      o.output = none ∧ o.buf.list = []) := by
  refine ⟨fun buf => rfl, fun buf ao => rfl, ?_⟩
  intro σ E op st input fuel allocs o h hfail
  rw [compress_stream] at h
  split at h
  · cases h
    simp at hfail
  next buf0 availOut0 hinit =>
    exact (compress_loop_props E op allocs fuel st input buf0 availOut0 1 o h).2.2.2.2.1
      hfail

/-- Witness for C9: a concrete failed growth, a concrete failed
finalization, and a concrete driver run whose finalization allocation
fails. -/
theorem C9_allocation_failure_releases_witness :
    BlocksOutputBuffer_Grow ⟨[⟨1, [0]⟩], 1⟩ false = .error ⟨[], 1⟩ ∧
    BlocksOutputBuffer_Finish ⟨[⟨1, [0]⟩], 1⟩ 0 false = (none, ⟨[], 1⟩) ∧
    compress_stream mockE EncOp.process () [] 1 [true, false] =
      some ⟨none, (), ⟨[], 32768⟩,
        [Ev.step true 0 32766 false [7, 7], Ev.finish false 32766]⟩ ∧
    ((⟨none, (), ⟨[], 32768⟩,
        [Ev.step true 0 32766 false [7, 7], Ev.finish false 32766]⟩ :
          CompressOut Unit).output = none ∧
      (⟨none, (), ⟨[], 32768⟩,
        [Ev.step true 0 32766 false [7, 7], Ev.finish false 32766]⟩ :
          CompressOut Unit).buf.list = []) := by
  have hrun : compress_stream mockE EncOp.process () [] 1 [true, false] =
      some ⟨none, (), ⟨[], 32768⟩,
        [Ev.step true 0 32766 false [7, 7], Ev.finish false 32766]⟩ := rfl
  refine ⟨C9_allocation_failure_releases.1 ⟨[⟨1, [0]⟩], 1⟩,
    C9_allocation_failure_releases.2.1 ⟨[⟨1, [0]⟩], 1⟩ 0, hrun, ?_⟩
  exact C9_allocation_failure_releases.2.2 Unit mockE EncOp.process () [] 1
    [true, false] _ hrun (by decide)

/-! ### Lemmas about the decompression drivers -/

theorem decExit_fields {σ : Type} (okFlag : Bool) (r : BrotliDecoderResult)
    (ai : Nat) (st : σ) (buf : BlocksOutputBuffer) (ao : Nat) (evs : List Ev) :
    (decExit okFlag r ai st buf ao true evs).finalResult = r ∧
    (decExit okFlag r ai st buf ao true evs).availIn = ai ∧
    (decExit okFlag r ai st buf ao true evs).output.isSome = okFlag := by
  cases okFlag with
  | false => exact ⟨rfl, rfl, rfl⟩
  | true => exact ⟨rfl, rfl, rfl⟩

/-- In every terminating `decompress_stream` loop run with a working
allocator, the run returns bytes exactly when the final decoder status is
not `ERROR` and all input was consumed. -/
theorem decompress_loop_iff {σ : Type} (D : DecEngine σ) :
    ∀ fuel st input buf availOut aIdx (o : DecOut σ),
      decompress_loop D [] fuel st input buf availOut aIdx = some o →
      (o.output.isSome = true ↔
        (o.finalResult ≠ .error ∧ o.availIn = 0)) := by
  intro fuel
  induction fuel with
  | zero =>
    intro st input buf availOut aIdx o h
    rw [decompress_loop] at h
    exact absurd h (by simp)
  | succ fuel ih =>
    intro st input buf availOut aIdx o h
    rw [decompress_loop] at h
    split at h
    next h0 =>
      split at h
      next bf hg =>
        rw [show ([] : List Bool).getD aIdx true = true from rfl,
          BlocksOutputBuffer_Grow] at hg
        simp at hg
      next buf2 availOut2 hg =>
        split at h
        next hres =>
          rw [consDecTrace.eq_def] at h
          split at h
          next hrec => simp at h
          next o' hrec =>
            cases h
            exact ih _ _ _ _ _ o' hrec
        next hres =>
          cases h
          obtain ⟨hf, ha, hs⟩ := decExit_fields
            (decide ((D.step st input availOut).result ≠ .error) &&
              (D.step st input availOut).input'.isEmpty)
            (D.step st input availOut).result
            (D.step st input availOut).input'.length
            (D.step st input availOut).st buf2 availOut2
            [Ev.step true (D.step st input availOut).input'.length
              (availOut - (List.take availOut (D.step st input availOut).written).length)
              false (List.take availOut (D.step st input availOut).written),
             Ev.grow true availOut2]
          rw [show ([] : List Bool).getD (aIdx + 1) true = true from rfl]
          rw [hf, ha, hs]
          simp [List.isEmpty_iff, List.length_eq_zero]
    next h0 =>
      split at h
      next hres =>
        rw [consDecTrace.eq_def] at h
        split at h
        next hrec => simp at h
        next o' hrec =>
          cases h
          exact ih _ _ _ _ _ o' hrec
      next hres =>
        cases h
        obtain ⟨hf, ha, hs⟩ := decExit_fields
          (decide ((D.step st input availOut).result ≠ .error) &&
            (D.step st input availOut).input'.isEmpty)
          (D.step st input availOut).result
          (D.step st input availOut).input'.length
          (D.step st input availOut).st
          (writeWindow buf availOut (List.take availOut (D.step st input availOut).written))
          (availOut - (List.take availOut (D.step st input availOut).written).length)
          [Ev.step true (D.step st input availOut).input'.length
            (availOut - (List.take availOut (D.step st input availOut).written).length)
            false (List.take availOut (D.step st input availOut).written)]
        rw [show ([] : List Bool).getD aIdx true = true from rfl]
        rw [hf, ha, hs]
        simp [List.isEmpty_iff, List.length_eq_zero]

/-- In every terminating `brotli_decompress` loop run with a working
allocator, the run returns bytes exactly when the final decoder status is
`SUCCESS` and all input was consumed. -/
theorem brotli_decompress_loop_iff {σ : Type} (D : DecEngine σ) :
    ∀ fuel st input buf availOut aIdx (o : DecOut σ),
      brotli_decompress_loop D [] fuel st input buf availOut aIdx = some o →
      (o.output.isSome = true ↔
        (o.finalResult = .success ∧ o.availIn = 0)) := by
  intro fuel
  induction fuel with
  | zero =>
    intro st input buf availOut aIdx o h
    rw [brotli_decompress_loop] at h
    exact absurd h (by simp)
  | succ fuel ih =>
    intro st input buf availOut aIdx o h
    rw [brotli_decompress_loop] at h
    split at h
    next h0 =>
      split at h
      next bf hg =>
        rw [show ([] : List Bool).getD aIdx true = true from rfl,
          BlocksOutputBuffer_Grow] at hg
        simp at hg
      next buf2 availOut2 hg =>
        split at h
        next hres =>
          rw [consDecTrace.eq_def] at h
          split at h
          next hrec => simp at h
          next o' hrec =>
            cases h
            exact ih _ _ _ _ _ o' hrec
        next hres =>
          cases h
          obtain ⟨hf, ha, hs⟩ := decExit_fields
            (decide ((D.step st input availOut).result = .success) &&
              (D.step st input availOut).input'.isEmpty)
            (D.step st input availOut).result
            (D.step st input availOut).input'.length
            (D.step st input availOut).st buf2 availOut2
            [Ev.step true (D.step st input availOut).input'.length
              (availOut - (List.take availOut (D.step st input availOut).written).length)
              false (List.take availOut (D.step st input availOut).written),
             Ev.grow true availOut2]
          rw [show ([] : List Bool).getD (aIdx + 1) true = true from rfl]
          rw [hf, ha, hs]
          simp [List.isEmpty_iff, List.length_eq_zero]
    next h0 =>
      split at h
      next hres =>
        rw [consDecTrace.eq_def] at h
        split at h
        next hrec => simp at h
        next o' hrec =>
          cases h
          exact ih _ _ _ _ _ o' hrec
      next hres =>
        cases h
        obtain ⟨hf, ha, hs⟩ := decExit_fields
          (decide ((D.step st input availOut).result = .success) &&
            (D.step st input availOut).input'.isEmpty)
          (D.step st input availOut).result
          (D.step st input availOut).input'.length
          (D.step st input availOut).st
          (writeWindow buf availOut (List.take availOut (D.step st input availOut).written))
          (availOut - (List.take availOut (D.step st input availOut).written).length)
          [Ev.step true (D.step st input availOut).input'.length
            (availOut - (List.take availOut (D.step st input availOut).written).length)
            false (List.take availOut (D.step st input availOut).written)]
        rw [show ([] : List Bool).getD aIdx true = true from rfl]
        rw [hf, ha, hs]
        simp [List.isEmpty_iff, List.length_eq_zero]

/-! ### Claim C3 -/

/-- C3 counterexample: a `Decompressor.process` run (`decompress_stream`)
that ends in `NEEDS_MORE_INPUT` — not `SUCCESS` — with all input consumed
nevertheless succeeds and returns a (empty) byte string, contradicting the
claim that every decompression run fails whenever the final status is not
FINISHED. -/
theorem C3_success_iff_finished_cex :
    (decompress_stream stubDec () [1, 2, 3] 1 []).map
        (fun o => (o.output.isSome, o.finalResult)) =
      some (true, BrotliDecoderResult.needsMoreInput) := rfl

/-- C3 amended: with a working allocator, the one-shot `decompress` succeeds
exactly when the final decoder status is `SUCCESS` and `available_in == 0`,
as the claim states; but the stateful `Decompressor.process` succeeds
exactly when the final status is anything other than `ERROR` (including
`NEEDS_MORE_INPUT`) and `available_in == 0`.  In either case a failing run
returns no byte string at all. -/
theorem C3_success_conditions_amended :
    (∀ (σ : Type) (D : DecEngine σ) (st : σ) (input : List Nat) (fuel : Nat)
      (o : DecOut σ), decompress_stream D st input fuel [] = some o →
      (o.output.isSome = true ↔ (o.finalResult ≠ .error ∧ o.availIn = 0))) ∧
    (∀ (σ : Type) (D : DecEngine σ) (st : σ) (input : List Nat) (fuel : Nat)
      (o : DecOut σ), brotli_decompress D st input fuel [] = some o →
      (o.output.isSome = true ↔ (o.finalResult = .success ∧ o.availIn = 0))) := by
  constructor
  · intro σ D st input fuel o h
    rw [decompress_stream] at h
    split at h
    next hinit => exact absurd hinit (by simp [BlocksOutputBuffer_InitAndGrow])
    next buf0 availOut0 hinit =>
      exact decompress_loop_iff D fuel st input buf0 availOut0 1 o h
  · intro σ D st input fuel o h
    rw [brotli_decompress] at h
    split at h
    next hinit => exact absurd hinit (by simp [BlocksOutputBuffer_InitAndGrow])
    next buf0 availOut0 hinit =>
      exact brotli_decompress_loop_iff D fuel st input buf0 availOut0 1 o h

/-- Witness for C3 (amended) on two concrete decoder runs. -/
theorem C3_success_conditions_amended_witness :
    decompress_stream stubDec () [1, 2, 3] 1 [] =
      some ⟨some [], .needsMoreInput, 0, (), ⟨[], 32768⟩,
        [Ev.step true 0 32768 false [], Ev.finish true 32768]⟩ ∧
    ((⟨some [], .needsMoreInput, 0, (), ⟨[], 32768⟩,
        [Ev.step true 0 32768 false [], Ev.finish true 32768]⟩ :
        DecOut Unit).output.isSome = true ↔
      ((⟨some [], .needsMoreInput, 0, (), ⟨[], 32768⟩,
        [Ev.step true 0 32768 false [], Ev.finish true 32768]⟩ :
        DecOut Unit).finalResult ≠ .error ∧
       (⟨some [], .needsMoreInput, 0, (), ⟨[], 32768⟩,
        [Ev.step true 0 32768 false [], Ev.finish true 32768]⟩ :
        DecOut Unit).availIn = 0)) ∧
    brotli_decompress okDec () [1, 2, 3] 1 [] =
      some ⟨some [9, 9], .success, 0, (), ⟨[], 32768⟩,
        [Ev.step true 0 32766 false [9, 9], Ev.finish true 32766]⟩ ∧
    ((⟨some [9, 9], .success, 0, (), ⟨[], 32768⟩,
        [Ev.step true 0 32766 false [9, 9], Ev.finish true 32766]⟩ :
        DecOut Unit).output.isSome = true ↔
      ((⟨some [9, 9], .success, 0, (), ⟨[], 32768⟩,
        [Ev.step true 0 32766 false [9, 9], Ev.finish true 32766]⟩ :
        DecOut Unit).finalResult = .success ∧
       (⟨some [9, 9], .success, 0, (), ⟨[], 32768⟩,
        [Ev.step true 0 32766 false [9, 9], Ev.finish true 32766]⟩ :
        DecOut Unit).availIn = 0)) := by
  refine ⟨rfl, ?_, rfl, ?_⟩
  · exact C3_success_conditions_amended.1 Unit stubDec () [1, 2, 3] 1 _ rfl
  · exact C3_success_conditions_amended.2 Unit okDec () [1, 2, 3] 1 _ rfl

/-! ### Claim C10 -/

/-- C10: if engine-instance creation failed at construction time (the
handle stored in the wrapper object is `NULL`), every subsequent method
call — `process`, `flush`, `finish` on the compressor; `process`,
`is_finished` on the decompressor — returns an error immediately, with an
empty driver trace: no engine step is ever invoked on the null handle. -/
theorem C10_null_engine_handle_guard :
    (∀ (σ : Type) (E : EncEngine σ) (input : List Nat) (fuel : Nat)
      (allocs : List Bool),
      brotli_Compressor_process E none input fuel allocs = some ⟨none, none, []⟩) ∧
    (∀ (σ : Type) (E : EncEngine σ) (fuel : Nat) (allocs : List Bool),
      brotli_Compressor_flush E none fuel allocs = some ⟨none, none, []⟩) ∧
    (∀ (σ : Type) (E : EncEngine σ) (fuel : Nat) (allocs : List Bool),
      brotli_Compressor_finish E none fuel allocs = some ⟨none, none, []⟩) ∧
    (∀ (σ : Type) (D : DecEngine σ) (input : List Nat) (fuel : Nat)
      (allocs : List Bool),
      brotli_Decompressor_process D none input fuel allocs = some ⟨none, none, []⟩) ∧
    (∀ (σ : Type) (D : DecEngine σ),
      brotli_Decompressor_is_finished D none = none) :=
  ⟨fun _ _ _ _ _ => rfl, fun _ _ _ _ => rfl, fun _ _ _ _ => rfl,
   fun _ _ _ _ _ => rfl, fun _ _ => rfl⟩

/-! ### Claim C5 -/

/-- C5 counterexample: constructing a compressor with `quality = 12` does
fail, but the engine instance has already been allocated by `tp_new`
(`BrotliEncoderCreateInstance` in `brotli_Compressor_new`, line 356) before
`tp_init` validates the arguments — so the failure does not happen "before
any engine allocation occurs". -/
theorem C5_engine_allocated_before_validation_cex :
    (Compressor_construct true ⟨none, some (.int 12), none, none⟩).self = none ∧
    (Compressor_construct true ⟨none, some (.int 12), none, none⟩).engineAllocated =
      true := by decide

/-- C5 amended: constructing a compressor with any parameter outside its
range — mode not in {GENERIC, TEXT, FONT}, quality outside [0,11], lgwin
outside [10,24], lgblock nonzero and outside [16,24], or a wrong-typed
value — fails with an invalid-argument error during `tp_init`, before any
engine parameter is set; the engine instance itself, however, has already
been allocated by `tp_new` (and is released only when the failed object is
destroyed). -/
theorem C5_invalid_arguments_rejected :
    (∀ (enc : Bool) (v : Int), (v < 0 ∨ 11 < v) →
      Compressor_construct enc ⟨none, some (.int v), none, none⟩ = ⟨none, enc⟩) ∧
    (∀ (enc : Bool) (v : Int), (v < 10 ∨ 24 < v) →
      Compressor_construct enc ⟨none, none, some (.int v), none⟩ = ⟨none, enc⟩) ∧
    (∀ (enc : Bool) (v : Int), (v ≠ 0 ∧ (v < 16 ∨ 24 < v)) →
      Compressor_construct enc ⟨none, none, none, some (.int v)⟩ = ⟨none, enc⟩) ∧
    (∀ (enc : Bool) (v : Int), (v ≠ 0 ∧ v ≠ 1 ∧ v ≠ 2) →
      Compressor_construct enc ⟨some (.int v), none, none, none⟩ = ⟨none, enc⟩) ∧
    (∀ enc : Bool,
      Compressor_construct enc ⟨some .notInt, none, none, none⟩ = ⟨none, enc⟩ ∧
      Compressor_construct enc ⟨none, some .notInt, none, none⟩ = ⟨none, enc⟩ ∧
      Compressor_construct enc ⟨none, none, some .notInt, none⟩ = ⟨none, enc⟩ ∧
      Compressor_construct enc ⟨none, none, none, some .notInt⟩ = ⟨none, enc⟩) := by
  refine ⟨?_, ?_, ?_, ?_, fun enc => ⟨rfl, rfl, rfl, rfl⟩⟩
  · intro enc v h
    have hq : quality_convertor (PyVal.int v) = none := by
      simp [quality_convertor, as_bounded_int, PyInt_Check, PyInt_AsLong]
      rcases h with h1 | h1 <;> omega
    simp [Compressor_construct, brotli_Compressor_new, brotli_Compressor_init,
      parseCompressorArgs, hq]
  · intro enc v h
    have hw : lgwin_convertor (PyVal.int v) = none := by
      simp [lgwin_convertor, as_bounded_int, PyInt_Check, PyInt_AsLong]
      rcases h with h1 | h1 <;> omega
    simp [Compressor_construct, brotli_Compressor_new, brotli_Compressor_init,
      parseCompressorArgs, hw]
  · intro enc v h
    have hb : lgblock_convertor (PyVal.int v) = none := by
      simp [lgblock_convertor, as_bounded_int, PyInt_Check, PyInt_AsLong]
      by_cases hbound : v < 0 ∨ 24 < v
      · rw [if_pos hbound]
      · rw [if_neg hbound]
        have h16 : v < 16 := by
          rcases h.2 with h2 | h2
          · exact h2
          · exact absurd (Or.inr h2) hbound
        simp [h.1, h16]
    simp [Compressor_construct, brotli_Compressor_new, brotli_Compressor_init,
      parseCompressorArgs, hb]
  · intro enc v h
    have hm : mode_convertor (PyVal.int v) = none := by
      simp [mode_convertor, as_bounded_int, PyInt_Check, PyInt_AsLong,
        BROTLI_MODE_GENERIC, BROTLI_MODE_TEXT, BROTLI_MODE_FONT]
      by_cases hbound : v < 0 ∨ 255 < v
      · rw [if_pos hbound]
      · rw [if_neg hbound]
        simp [h.1, h.2.1, h.2.2]
    simp [Compressor_construct, brotli_Compressor_new, brotli_Compressor_init,
      parseCompressorArgs, hm]

/-- Witness for C5 (amended) at the spec's concrete examples: quality 12,
lgwin 9, lgblock 5, mode 3. -/
theorem C5_invalid_arguments_rejected_witness :
    Compressor_construct true ⟨none, some (.int 12), none, none⟩ = ⟨none, true⟩ ∧
    Compressor_construct true ⟨none, none, some (.int 9), none⟩ = ⟨none, true⟩ ∧
    Compressor_construct true ⟨none, none, none, some (.int 5)⟩ = ⟨none, true⟩ ∧
    Compressor_construct true ⟨some (.int 3), none, none, none⟩ = ⟨none, true⟩ :=
  ⟨C5_invalid_arguments_rejected.1 true 12 (by decide),
   C5_invalid_arguments_rejected.2.1 true 9 (by decide),
   C5_invalid_arguments_rejected.2.2.1 true 5 (by decide),
   C5_invalid_arguments_rejected.2.2.2.1 true 3 (by decide)⟩

/-! ### Claim C4 -/

theorem compress_loop_first_step_fail {σ : Type} (E : EncEngine σ) (op : EncOp)
    (allocs : List Bool) (fuel : Nat) (st : σ) (input : List Nat)
    (buf : BlocksOutputBuffer) (availOut aIdx : Nat) (o : CompressOut σ)
    (hfail : (E.step st op input availOut).ok = false)
    (h : compress_loop E op allocs fuel st input buf availOut aIdx = some o) :
    o.output = none := by
  cases fuel with
  | zero => rw [compress_loop] at h; exact absurd h (by simp)
  | succ n =>
    rw [compress_loop, if_pos hfail] at h
    cases h
    rfl

theorem compress_stream_step_fail {σ : Type} (E : EncEngine σ) (op : EncOp)
    (st : σ) (input : List Nat) (fuel : Nat) (allocs : List Bool)
    (o : CompressOut σ)
    (hfail : ∀ availOut, (E.step st op input availOut).ok = false)
    (h : compress_stream E op st input fuel allocs = some o) :
    o.output = none := by
  rw [compress_stream] at h
  split at h
  · cases h; rfl
  next buf0 availOut0 hinit =>
    exact compress_loop_first_step_fail E op allocs fuel st input buf0 availOut0 1 o
      (hfail availOut0) h

/-- C4: for every compressor whose `finish()` completed successfully (so
the engine, which cannot be reset after FINISH, reports finished), any
subsequent `process()` or `flush()` call fails by raising the module error
rather than succeeding or producing output. -/
theorem C4_process_flush_after_finish_fail :
    ∀ (σ : Type) (E : EncEngine σ) (st : σ) (fuel : Nat) (allocs : List Bool)
      (r : MethodOut σ),
      FinalizedEncoder E →
      brotli_Compressor_finish E (some st) fuel allocs = some r →
      r.ret.isSome = true →
      (∀ (input : List Nat) (fuel2 : Nat) (allocs2 : List Bool) (r2 : MethodOut σ),
        brotli_Compressor_process E r.self input fuel2 allocs2 = some r2 →
        r2.ret = none) ∧
      (∀ (fuel2 : Nat) (allocs2 : List Bool) (r2 : MethodOut σ),
        brotli_Compressor_flush E r.self fuel2 allocs2 = some r2 →
        r2.ret = none) := by
  intro σ E st fuel allocs r hFin hrun hsome
  rw [brotli_Compressor_finish] at hrun
  split at hrun
  next hcs => simp at hrun
  next o hcs =>
    split at hrun
    next hok =>
      cases hrun
      have hfin : E.isFinished o.enc = true := by
        rcases Bool.and_eq_true_iff.mp hok with ⟨-, h2⟩
        exact h2
      constructor
      · intro input fuel2 allocs2 r2 h2
        rw [brotli_Compressor_process] at h2
        split at h2
        next hcs2 => simp at h2
        next o2 hcs2 =>
          cases h2
          exact compress_stream_step_fail E EncOp.process o.enc input fuel2 allocs2
            o2 (fun availOut => hFin o.enc EncOp.process input availOut hfin) hcs2
      · intro fuel2 allocs2 r2 h2
        rw [brotli_Compressor_flush] at h2
        split at h2
        next hcs2 => simp at h2
        next o2 hcs2 =>
          cases h2
          exact compress_stream_step_fail E EncOp.flush o.enc [] fuel2 allocs2
            o2 (fun availOut => hFin o.enc EncOp.flush [] availOut hfin) hcs2
    next hok =>
      cases hrun
      simp at hsome

/-- Witness for C4 on the concrete finalized-compliant engine `finEnc`. -/
theorem C4_process_flush_after_finish_fail_witness :
    brotli_Compressor_finish finEnc (some false) 2 [] =
      some ⟨some [], some true, [Ev.step true 0 32768 false [], Ev.finish true 32768]⟩ ∧
    (brotli_Compressor_process finEnc (some true) [1] 1 []).map (fun r2 => r2.ret) =
      some none ∧
    (brotli_Compressor_flush finEnc (some true) 1 []).map (fun r2 => r2.ret) =
      some none := by
  have hFin : FinalizedEncoder finEnc := by
    intro s op input availOut h
    have hs : s = true := h
    simp [finEnc, hs]
  have hrun : brotli_Compressor_finish finEnc (some false) 2 [] =
      some ⟨some [], some true, [Ev.step true 0 32768 false [], Ev.finish true 32768]⟩ :=
    rfl
  have hc := C4_process_flush_after_finish_fail Bool finEnc false 2 []
    ⟨some [], some true, [Ev.step true 0 32768 false [], Ev.finish true 32768]⟩
    hFin hrun rfl
  refine ⟨hrun, ?_, ?_⟩
  · obtain ⟨r2, hr2⟩ : ∃ r2, brotli_Compressor_process finEnc (some true) [1] 1 [] =
        some r2 := ⟨_, rfl⟩
    rw [hr2]
    have hret := hc.1 [1] 1 [] r2 hr2
    simp [hret]
  · obtain ⟨r2, hr2⟩ : ∃ r2, brotli_Compressor_flush finEnc (some true) 1 [] =
        some r2 := ⟨_, rfl⟩
    rw [hr2]
    have hret := hc.2 1 [] r2 hr2
    simp [hret]

/-! ### Lemmas about the identity codec runs (claim C8) -/

theorem getD_nil_true (i : Nat) : ([] : List Bool).getD i true = true := rfl

theorem grow_true (b : BlocksOutputBuffer) :
    BlocksOutputBuffer_Grow b true = .ok
      (⟨b.list ++ [newBlock (blockSizeFor b.list.length)],
        b.allocated + blockSizeFor b.list.length⟩,
       blockSizeFor b.list.length) := rfl

theorem idEnc_step (st : List Nat) (op : EncOp) (input : List Nat) (availOut : Nat) :
    idEnc.step st op input availOut =
      ⟨true, (st ++ input).drop availOut, [], (st ++ input).take availOut⟩ := rfl

theorem idEnc_hmo (st : List Nat) : idEnc.hasMoreOutput st = !st.isEmpty := rfl

theorem idDec_step (st input : List Nat) (availOut : Nat) :
    idDec.step st input availOut =
      ⟨if (st ++ input).length ≤ availOut then .success else .needsMoreOutput,
       (st ++ input).drop availOut, [], (st ++ input).take availOut⟩ := rfl

theorem writeWindow_list (buf : BlocksOutputBuffer) (availOut : Nat) (bs : List Nat) :
    (writeWindow buf availOut bs).list = writeLast buf.list availOut bs := rfl

theorem copyBlocks_newBlock_self (n : Nat) : copyBlocks [newBlock n] n = [] := by
  rw [copyBlocks, newBlock]
  simp

/-- The compression loop driven by the identity engine with FINISH collects
the already-written bytes followed by all pending and incoming bytes. -/
theorem idEnc_loop :
    ∀ (fuel : Nat) (st input : List Nat) (buf : BlocksOutputBuffer)
      (availOut aIdx : Nat),
      (st ++ input).length < fuel →
      buf.list ≠ [] →
      (∀ c ∈ buf.list, c.data.length = c.cap) →
      availOut ≤ (lastChunk buf.list).cap →
      0 < availOut →
      ∃ o, compress_loop idEnc EncOp.finish [] fuel st input buf availOut aIdx =
          some o ∧
        o.output = some (copyBlocks buf.list availOut ++ (st ++ input)) := by
  intro fuel
  induction fuel with
  | zero =>
    intro st input buf availOut aIdx hfuel hne hfull hao hpos
    omega
  | succ fuel ih =>
    intro st input buf availOut aIdx hfuel hne hfull hao hpos
    rw [compress_loop]
    simp only [idEnc_step, idEnc_hmo, List.length_nil, List.isEmpty_nil,
      Bool.not_true, Bool.false_or]
    rcases Nat.lt_or_ge (st ++ input).length availOut with hlt | hge
    · -- everything fits in the current window; the loop exits and finishes
      have hbs : List.take availOut (List.take availOut (st ++ input)) =
          st ++ input := by
        rw [List.take_take, Nat.min_self]
        exact List.take_of_length_le (le_of_lt hlt)
      have hdrop : List.drop availOut (st ++ input) = [] :=
        List.drop_eq_nil_of_le (le_of_lt hlt)
      rw [hbs, hdrop]
      rw [if_neg (by simp)]
      rw [if_neg (by omega)]
      rw [if_neg (by simp)]
      refine ⟨_, rfl, ?_⟩
      show some (copyBlocks (writeLast buf.list availOut (st ++ input))
          (availOut - (st ++ input).length)) =
        some (copyBlocks buf.list availOut ++ (st ++ input))
      rw [copyBlocks_writeLast buf.list availOut (st ++ input) hfull hne
        (le_of_lt hlt) hao]
    · -- the window is filled exactly; the buffer grows
      have hbs : List.take availOut (List.take availOut (st ++ input)) =
          List.take availOut (st ++ input) := by
        rw [List.take_take, Nat.min_self]
      have hbslen : (List.take availOut (st ++ input)).length = availOut := by
        rw [List.length_take]
        omega
      rw [hbs, hbslen]
      rw [if_neg (by simp)]
      rw [if_pos (by omega)]
      rw [getD_nil_true]
      simp only [grow_true]
      have hW := copyBlocks_writeLast buf.list availOut
        (List.take availOut (st ++ input)) hfull hne (le_of_eq hbslen) hao
      rw [hbslen, Nat.sub_self] at hW
      have hwne : (writeWindow buf availOut (List.take availOut (st ++ input))).list ≠
          [] := writeLast_ne_nil buf.list availOut _ hne
      have hGcat := copyBlocks_concat_newBlock
        (writeWindow buf availOut (List.take availOut (st ++ input))).list
        (blockSizeFor (writeWindow buf availOut
          (List.take availOut (st ++ input))).list.length)
      rcases Nat.eq_or_lt_of_le hge with heq | hlt2
      · -- no pending bytes remain: exit after the growth
        have hdrop : List.drop availOut (st ++ input) = [] :=
          List.drop_eq_nil_of_le (le_of_eq heq.symm)
        rw [hdrop]
        rw [if_neg (by simp)]
        refine ⟨_, rfl, ?_⟩
        show some (copyBlocks ((writeWindow buf availOut
            (List.take availOut (st ++ input))).list ++
            [newBlock (blockSizeFor (writeWindow buf availOut
              (List.take availOut (st ++ input))).list.length)])
            (blockSizeFor (writeWindow buf availOut
              (List.take availOut (st ++ input))).list.length)) =
          some (copyBlocks buf.list availOut ++ (st ++ input))
        rw [hGcat]
        show some (copyBlocks (writeLast buf.list availOut
            (List.take availOut (st ++ input))) 0) = _
        rw [hW]
        rw [List.take_of_length_le (le_of_eq heq.symm)]
      · -- pending bytes remain: the loop continues with a fresh window
        have hdropne : List.drop availOut (st ++ input) ≠ [] := by
          apply List.ne_nil_of_length_pos
          rw [List.length_drop]
          omega
        rw [if_pos (by simpa [List.isEmpty_iff] using hdropne)]
        have hfull2 : ∀ c ∈ (writeWindow buf availOut
            (List.take availOut (st ++ input))).list ++
            [newBlock (blockSizeFor (writeWindow buf availOut
              (List.take availOut (st ++ input))).list.length)],
            c.data.length = c.cap := by
          intro c hc
          rcases List.mem_append.mp hc with hc | hc
          · exact writeLast_full buf.list availOut _ hfull (le_of_eq hbslen) hao c hc
          · rw [List.mem_singleton.mp hc]
            simp [newBlock]
        obtain ⟨o', ho', hout⟩ := ih (List.drop availOut (st ++ input)) []
          ⟨(writeWindow buf availOut (List.take availOut (st ++ input))).list ++
            [newBlock (blockSizeFor (writeWindow buf availOut
              (List.take availOut (st ++ input))).list.length)],
           (writeWindow buf availOut (List.take availOut (st ++ input))).allocated +
             blockSizeFor (writeWindow buf availOut
               (List.take availOut (st ++ input))).list.length⟩
          (blockSizeFor (writeWindow buf availOut
            (List.take availOut (st ++ input))).list.length)
          (aIdx + 1)
          (by simp only [List.append_nil, List.length_drop]; omega)
          (by simp)
          hfull2
          (by rw [lastChunk_concat]; rfl)
          (blockSizeFor_pos _)
        rw [ho']
        refine ⟨_, rfl, ?_⟩
        show o'.output = _
        rw [hout, List.append_nil, hGcat, writeWindow_list, hW, List.append_assoc,
          List.take_append_drop]

/-- The one-shot decompression loop driven by the identity decoder collects
the already-written bytes followed by all pending and incoming bytes, ending
in `SUCCESS` with all input consumed. -/
theorem idDec_loop :
    ∀ (fuel : Nat) (st input : List Nat) (buf : BlocksOutputBuffer)
      (availOut aIdx : Nat),
      (st ++ input).length < fuel →
      buf.list ≠ [] →
      (∀ c ∈ buf.list, c.data.length = c.cap) →
      availOut ≤ (lastChunk buf.list).cap →
      0 < availOut →
      ∃ o, brotli_decompress_loop idDec [] fuel st input buf availOut aIdx =
          some o ∧
        o.output = some (copyBlocks buf.list availOut ++ (st ++ input)) ∧
        o.finalResult = .success ∧ o.availIn = 0 := by
  intro fuel
  induction fuel with
  | zero =>
    intro st input buf availOut aIdx hfuel hne hfull hao hpos
    omega
  | succ fuel ih =>
    intro st input buf availOut aIdx hfuel hne hfull hao hpos
    rw [brotli_decompress_loop]
    simp only [idDec_step, List.length_nil, List.isEmpty_nil]
    rcases Nat.lt_or_ge (st ++ input).length availOut with hlt | hge
    · have hbs : List.take availOut (List.take availOut (st ++ input)) =
          st ++ input := by
        rw [List.take_take, Nat.min_self]
        exact List.take_of_length_le (le_of_lt hlt)
      have hres : (if (st ++ input).length ≤ availOut then
          BrotliDecoderResult.success else BrotliDecoderResult.needsMoreOutput) =
          BrotliDecoderResult.success := if_pos (le_of_lt hlt)
      rw [hbs]
      simp only [hres]
      rw [if_neg (by omega)]
      rw [if_neg (by simp)]
      refine ⟨_, rfl, ?_, rfl, rfl⟩
      show some (copyBlocks (writeLast buf.list availOut (st ++ input))
          (availOut - (st ++ input).length)) =
        some (copyBlocks buf.list availOut ++ (st ++ input))
      rw [copyBlocks_writeLast buf.list availOut (st ++ input) hfull hne
        (le_of_lt hlt) hao]
    · have hbs : List.take availOut (List.take availOut (st ++ input)) =
          List.take availOut (st ++ input) := by
        rw [List.take_take, Nat.min_self]
      have hbslen : (List.take availOut (st ++ input)).length = availOut := by
        rw [List.length_take]
        omega
      rw [hbs, hbslen]
      rw [if_pos (by omega)]
      rw [getD_nil_true]
      simp only [grow_true]
      have hW := copyBlocks_writeLast buf.list availOut
        (List.take availOut (st ++ input)) hfull hne (le_of_eq hbslen) hao
      rw [hbslen, Nat.sub_self] at hW
      have hGcat := copyBlocks_concat_newBlock
        (writeWindow buf availOut (List.take availOut (st ++ input))).list
        (blockSizeFor (writeWindow buf availOut
          (List.take availOut (st ++ input))).list.length)
      rcases Nat.eq_or_lt_of_le hge with heq | hlt2
      · have hres : (if (st ++ input).length ≤ availOut then
            BrotliDecoderResult.success else BrotliDecoderResult.needsMoreOutput) =
            BrotliDecoderResult.success := if_pos (le_of_eq heq.symm)
        simp only [hres]
        rw [if_neg (by simp)]
        refine ⟨_, rfl, ?_, rfl, rfl⟩
        show some (copyBlocks ((writeWindow buf availOut
            (List.take availOut (st ++ input))).list ++
            [newBlock (blockSizeFor (writeWindow buf availOut
              (List.take availOut (st ++ input))).list.length)])
            (blockSizeFor (writeWindow buf availOut
              (List.take availOut (st ++ input))).list.length)) =
          some (copyBlocks buf.list availOut ++ (st ++ input))
        rw [hGcat, writeWindow_list, hW]
        rw [List.take_of_length_le (le_of_eq heq.symm)]
      · have hres : (if (st ++ input).length ≤ availOut then
            BrotliDecoderResult.success else BrotliDecoderResult.needsMoreOutput) =
            BrotliDecoderResult.needsMoreOutput := if_neg (by omega)
        simp only [hres]
        rw [if_pos trivial]
        have hfull2 : ∀ c ∈ (writeWindow buf availOut
            (List.take availOut (st ++ input))).list ++
            [newBlock (blockSizeFor (writeWindow buf availOut
              (List.take availOut (st ++ input))).list.length)],
            c.data.length = c.cap := by
          intro c hc
          rcases List.mem_append.mp hc with hc | hc
          · exact writeLast_full buf.list availOut _ hfull (le_of_eq hbslen) hao c hc
          · rw [List.mem_singleton.mp hc]
            simp [newBlock]
        obtain ⟨o', ho', hout, hres', hain⟩ := ih
          (List.drop availOut (st ++ input)) []
          ⟨(writeWindow buf availOut (List.take availOut (st ++ input))).list ++
            [newBlock (blockSizeFor (writeWindow buf availOut
              (List.take availOut (st ++ input))).list.length)],
           (writeWindow buf availOut (List.take availOut (st ++ input))).allocated +
             blockSizeFor (writeWindow buf availOut
               (List.take availOut (st ++ input))).list.length⟩
          (blockSizeFor (writeWindow buf availOut
            (List.take availOut (st ++ input))).list.length)
          (aIdx + 1)
          (by simp only [List.append_nil, List.length_drop]; omega)
          (by simp)
          hfull2
          (by rw [lastChunk_concat]; rfl)
          (blockSizeFor_pos _)
        rw [ho']
        refine ⟨_, rfl, ?_, hres', hain⟩
        show o'.output = _
        rw [hout, List.append_nil, hGcat, writeWindow_list, hW, List.append_assoc,
          List.take_append_drop]

theorem initAndGrow_true :
    BlocksOutputBuffer_InitAndGrow true =
      some (⟨[newBlock (BUFFER_BLOCK_SIZE.getD 0 0)], BUFFER_BLOCK_SIZE.getD 0 0⟩,
        BUFFER_BLOCK_SIZE.getD 0 0) := rfl

theorem compress_stream_id (S : List Nat) :
    ∃ o, compress_stream idEnc EncOp.finish [] S (S.length + 1) [] = some o ∧
      o.output = some S := by
  rw [compress_stream, getD_nil_true]
  simp only [initAndGrow_true]
  obtain ⟨o, ho, hout⟩ := idEnc_loop (S.length + 1) [] S
    ⟨[newBlock (BUFFER_BLOCK_SIZE.getD 0 0)], BUFFER_BLOCK_SIZE.getD 0 0⟩
    (BUFFER_BLOCK_SIZE.getD 0 0) 1
    (by simpa using Nat.lt_succ_self S.length)
    (by simp)
    (by intro c hc; rw [List.mem_singleton.mp hc]; simp [newBlock])
    (by rw [lastChunk_singleton]; exact Nat.le_refl _)
    (by decide)
  rw [ho]
  refine ⟨_, rfl, ?_⟩
  rw [hout, copyBlocks_newBlock_self]
  simp

theorem brotli_decompress_id (S : List Nat) :
    ∃ o, brotli_decompress idDec [] S (S.length + 1) [] = some o ∧
      o.output = some S := by
  rw [brotli_decompress, getD_nil_true]
  simp only [initAndGrow_true]
  obtain ⟨o, ho, hout, -, -⟩ := idDec_loop (S.length + 1) [] S
    ⟨[newBlock (BUFFER_BLOCK_SIZE.getD 0 0)], BUFFER_BLOCK_SIZE.getD 0 0⟩
    (BUFFER_BLOCK_SIZE.getD 0 0) 1
    (by simpa using Nat.lt_succ_self S.length)
    (by simp)
    (by intro c hc; rw [List.mem_singleton.mp hc]; simp [newBlock])
    (by rw [lastChunk_singleton]; exact Nat.le_refl _)
    (by decide)
  rw [ho]
  refine ⟨_, rfl, ?_⟩
  rw [hout, copyBlocks_newBlock_self]
  simp

/-! ### Claim C8 -/

/-- C8: for every byte sequence `S`, including the empty one, decompressing
the output of one-shot compression of `S` through the real driver loops
(`compress_stream` with FINISH, then `brotli_decompress`) yields exactly
`S`, with the opaque engine instantiated by the spec-modelled identity
codec satisfying the spec's step contract: the chunked buffer assembly
loses, duplicates and reorders nothing. -/
theorem C8_roundtrip_one_shot :
    ∀ S : List Nat, (compress_one_shot S).bind decompress_one_shot = some S := by
  intro S
  obtain ⟨o, ho, hout⟩ := compress_stream_id S
  have hc : compress_one_shot S = some S := by
    rw [compress_one_shot, ho]
    exact hout
  rw [hc]
  obtain ⟨o2, ho2, hout2⟩ := brotli_decompress_id S
  have hd : decompress_one_shot S = some S := by
    rw [decompress_one_shot, ho2]
    exact hout2
  exact hd

/-- Witness for C1 on a concrete two-chunk buffer. -/
theorem C1_finish_assembles_witness :
    (⟨[⟨3, [1, 2, 3]⟩, ⟨2, [4, 5]⟩], 5⟩ : BlocksOutputBuffer).list ≠ [] ∧
    (BlocksOutputBuffer_Finish ⟨[⟨3, [1, 2, 3]⟩, ⟨2, [4, 5]⟩], 5⟩ 1 true).1 =
      some (((⟨[⟨3, [1, 2, 3]⟩, ⟨2, [4, 5]⟩], 5⟩ :
          BlocksOutputBuffer).list.dropLast.map Chunk.data).flatten ++
        (lastChunk (⟨[⟨3, [1, 2, 3]⟩, ⟨2, [4, 5]⟩], 5⟩ :
          BlocksOutputBuffer).list).data.take
          ((lastChunk (⟨[⟨3, [1, 2, 3]⟩, ⟨2, [4, 5]⟩], 5⟩ :
            BlocksOutputBuffer).list).cap - 1)) := by
  refine ⟨by decide, ?_⟩
  exact (C1_finish_assembles ⟨[⟨3, [1, 2, 3]⟩, ⟨2, [4, 5]⟩], 5⟩ 1 (by decide)
    (by decide) (by decide) (by decide)).1

end Brotli

